import Mathlib

/-!
Shallow embedding of the Nanomatch-HFT matching engine core
(`src/hft_engine.cpp`, two-level-bitset variant with `MAX_PRICE_TICKS = 4096`),
together with proofs of the testable properties of its specification.

Modelling conventions:
* machine integers (`uint64_t`, `uint32_t`, `size_t`) are modelled as `Nat`;
  every value the engine stores in them is proved (or assumed, as a
  well-formedness invariant) to be below the corresponding power of two,
  so no wrap-around is ever reachable and plain `Nat` arithmetic is faithful;
* the C++ arrays `data_words_[64]`, `free_list_[MAX_ORDERS]` and the arrays of
  `PriceLevel`s are modelled as functions from the index type, updated with
  `Function.update`;
* the intrusive doubly-linked FIFO of a `PriceLevel` is modelled as a Lean
  `List` (front = `head`, back = `tail`); the engine only ever consumes the
  head (`pop_front`) and appends at the tail (`push_back`), which are exactly
  `List.tail` and `l ++ [o]`.  A separate pointer-accurate model of
  `PriceLevel` (heap of nodes with `prev`/`next` handles) is given further
  below for the claims that are about the sibling handles themselves;
* the unbounded C++ `while` loops of the matcher are modelled with an explicit
  fuel parameter plus a completion flag; the engine invokes them with a fuel
  that is proved sufficient, and the returned flag records that the loop
  exited through one of its own `break`/guard conditions (i.e. that the C++
  loop terminates with the same result).
-/

/-- `MAX_PRICE_TICKS` of `src/hft_engine.cpp` (the two-level bitset variant). -/
def MAX_PRICE_TICKS : Nat := 4096

/-- `MAX_ORDERS`: capacity of the order arena. -/
def MAX_ORDERS : Nat := 1000000

/-- Fuel-bounded count of trailing zeros: `ctzAux fuel n` is the number of
trailing zero bits of `n`, computed by at most `fuel` halvings.  For
`0 < n < 2 ^ fuel` it equals `__builtin_ctzll n`. -/
def ctzAux : Nat → Nat → Nat
  | 0, _ => 0
  | fuel + 1, n => if n % 2 = 1 then 0 else ctzAux fuel (n / 2) + 1

/-- `__builtin_ctzll` on a non-zero 64-bit word: index of the lowest set bit. -/
def ctz64 (n : Nat) : Nat := ctzAux 64 n

/-- `63 - __builtin_clzll n` on a non-zero 64-bit word: the index of the
highest set bit, which for `0 < n < 2 ^ 64` is exactly `Nat.log2 n`. -/
def msb64 (n : Nat) : Nat := Nat.log2 n

/-- The two-level bitset price index (`class FastPriceTracker`):
one 64-bit summary word and 64 data words of 64 bits each. -/
structure FastPriceTracker where
  summary_word : Nat
  data_words : Nat → Nat

/-- `FastPriceTracker::setPriceLevel`. -/
def FastPriceTracker.setPriceLevel (t : FastPriceTracker) (price : Nat) :
    FastPriceTracker :=
  let word_idx := price / 64
  let bit_idx := price % 64
  { summary_word := t.summary_word ||| (1 <<< word_idx),
    data_words := Function.update t.data_words word_idx
      (t.data_words word_idx ||| (1 <<< bit_idx)) }

/-- `FastPriceTracker::clearPriceLevel`.  The C++ `~(1ULL << b)` is the 64-bit
complement of the mask, i.e. `(2 ^ 64 - 1) ^^^ (1 <<< b)`. -/
def FastPriceTracker.clearPriceLevel (t : FastPriceTracker) (price : Nat) :
    FastPriceTracker :=
  let word_idx := price / 64
  let bit_idx := price % 64
  let dw := t.data_words word_idx &&& ((2 ^ 64 - 1) ^^^ (1 <<< bit_idx))
  { summary_word :=
      if dw = 0 then t.summary_word &&& ((2 ^ 64 - 1) ^^^ (1 <<< word_idx))
      else t.summary_word,
    data_words := Function.update t.data_words word_idx dw }

/-- `FastPriceTracker::getBestAsk`: lowest active tick, `MAX_PRICE_TICKS`
when the index is empty. -/
def FastPriceTracker.getBestAsk (t : FastPriceTracker) : Nat :=
  if t.summary_word = 0 then MAX_PRICE_TICKS
  else
    let lowest_word := ctz64 t.summary_word
    let lowest_bit := ctz64 (t.data_words lowest_word)
    lowest_word * 64 + lowest_bit

/-- `FastPriceTracker::getBestBid`: highest active tick, `0` when the index is
empty (the source's sentinel, which collides with the legal tick `0`). -/
def FastPriceTracker.getBestBid (t : FastPriceTracker) : Nat :=
  if t.summary_word = 0 then 0
  else
    let highest_word := msb64 t.summary_word
    let highest_bit := msb64 (t.data_words highest_word)
    highest_word * 64 + highest_bit

/-- Tick `p` is marked active in the index: bit `p % 64` of data word
`p / 64`. -/
def FastPriceTracker.activeAt (t : FastPriceTracker) (p : Nat) : Bool :=
  (t.data_words (p / 64)).testBit (p % 64)

/-- Well-formedness of a tracker state: all words fit in 64 bits, words past
the 64-entry array are zero, and the summary bit of a word is set iff the
word is non-zero (the representation invariant of the two-level bitset). -/
def FastPriceTracker.WF (t : FastPriceTracker) : Prop :=
  t.summary_word < 2 ^ 64 ∧
  (∀ w, t.data_words w < 2 ^ 64) ∧
  (∀ w, 64 ≤ w → t.data_words w = 0) ∧
  (∀ w, w < 64 → (t.summary_word.testBit w ↔ t.data_words w ≠ 0))

/-- An order record (`struct Order`).  The intrusive `prev`/`next` pointers
are represented structurally by the record's position in its level's list
(see the pointer-accurate `LevelState` model below for the claims about the
handles themselves); `slot` models the record's address in the arena
(`Order*`), which `deallocate` pushes back on the free stack. -/
structure Order where
  id : Nat
  price : Nat
  qty : Nat
  is_buy : Bool
  slot : Nat
deriving DecidableEq

/-- Modelled from the spec: the trade event `(inbound_id, resting_id, price,
quantity)` of §3/§6.  `src/hft_engine.cpp` only increments
`trades_executed_`; the event stream the specification requires is recorded
here at the same program point (`MatchingEngine::executeTrade`), carrying the
fields §3 names. -/
structure TradeEvent where
  inbound_id : Nat
  resting_id : Nat
  price : Nat
  qty : Nat
deriving DecidableEq

/-- The only runtime failure of the source: `OrderPool::allocate` throws
`std::runtime_error("OrderPool exhausted")`.  The source has no
`InvalidOrder` error of any kind. -/
inductive EngineError where
  | arenaExhausted
deriving DecidableEq

/-- The whole engine state: `OrderBook` (level arrays and the two
`FastPriceTracker`s), the free-stack bookkeeping of `OrderPool`, and the
trade counter (plus the spec-modelled trade event list). -/
structure EngineState where
  bids : Nat → List Order
  asks : Nat → List Order
  bid_tracker : FastPriceTracker
  ask_tracker : FastPriceTracker
  free_idx : Nat
  free_list : Nat → Nat
  trades_executed : Nat
  trades : List TradeEvent

/-- `OrderPool::allocate`: throws when no free slot exists, otherwise pops
the top free index and fills in the record's fields (sibling handles null). -/
def allocateOrder (e : EngineState) (id price qty : Nat) (is_buy : Bool) :
    Except EngineError (Order × EngineState) :=
  if e.free_idx = 0 then .error .arenaExhausted
  else
    .ok ({ id := id, price := price, qty := qty, is_buy := is_buy,
           slot := e.free_list (e.free_idx - 1) },
         { e with free_idx := e.free_idx - 1 })

/-- `OrderPool::deallocate`: pushes the record's index back on the free
stack. -/
def deallocateOrder (e : EngineState) (slot : Nat) : EngineState :=
  { e with free_list := Function.update e.free_list e.free_idx slot,
           free_idx := e.free_idx + 1 }

/-- `OrderBook::addOrder`: if the own-side level was empty, set its index
bit; then append the order at the level's tail (`PriceLevel::push_back`). -/
def bookAddOrder (e : EngineState) (o : Order) : EngineState :=
  if o.is_buy then
    let e1 := if e.bids o.price = []
      then { e with bid_tracker := e.bid_tracker.setPriceLevel o.price } else e
    { e1 with bids := Function.update e1.bids o.price (e1.bids o.price ++ [o]) }
  else
    let e1 := if e.asks o.price = []
      then { e with ask_tracker := e.ask_tracker.setPriceLevel o.price } else e
    { e1 with asks := Function.update e1.asks o.price (e1.asks o.price ++ [o]) }

/-- `MatchingEngine::executeTrade`.  `resting` is the head of the level at
`fill_price` on the side selected by `is_bid_book`.  Both quantities are
decremented by the fill, the counter is incremented (and the trade event
recorded); if the resting order is exhausted it is popped from the level
(`PriceLevel::pop_front`), the index bit is cleared when the level emptied,
and the record is returned to the arena. -/
def executeTrade (e : EngineState) (inbound resting : Order) (fill_price : Nat)
    (is_bid_book : Bool) : Order × EngineState :=
  let traded_qty := min inbound.qty resting.qty
  let inbound' := { inbound with qty := inbound.qty - traded_qty }
  let resting' := { resting with qty := resting.qty - traded_qty }
  let ev : TradeEvent := { inbound_id := inbound.id, resting_id := resting.id,
                           price := fill_price, qty := traded_qty }
  let e1 := { e with trades_executed := e.trades_executed + 1,
                     trades := e.trades ++ [ev] }
  if resting'.qty = 0 then
    let rest := ((if is_bid_book then e1.bids else e1.asks) fill_price).tail
    let e2 := if is_bid_book
      then { e1 with bids := Function.update e1.bids fill_price rest }
      else { e1 with asks := Function.update e1.asks fill_price rest }
    let e3 := if rest = [] then
        (if is_bid_book
         then { e2 with bid_tracker := e2.bid_tracker.clearPriceLevel fill_price }
         else { e2 with ask_tracker := e2.ask_tracker.clearPriceLevel fill_price })
      else e2
    (inbound', deallocateOrder e3 resting.slot)
  else
    let rest := ((if is_bid_book then e1.bids else e1.asks) fill_price).tail
    let e2 := if is_bid_book
      then { e1 with bids := Function.update e1.bids fill_price (resting' :: rest) }
      else { e1 with asks := Function.update e1.asks fill_price (resting' :: rest) }
    (inbound', e2)

/-- `MatchingEngine::matchBuyOrder`'s `while` loop, with explicit fuel.  The
returned flag is `true` when the loop exited through its own guard or
`break` (the behaviour of the unbounded C++ loop) and `false` when the fuel
ran out or the level at the best ask had a null head — a state unreachable
under the engine invariant, where the C++ code would dereference a null
pointer. -/
def matchBuyLoop : Nat → Order → EngineState → Order × EngineState × Bool
  | 0, inbound, e => (inbound, e, false)
  | fuel + 1, inbound, e =>
    if inbound.qty = 0 then (inbound, e, true)
    else
      let best_ask := e.ask_tracker.getBestAsk
      if best_ask > inbound.price ∨ best_ask = MAX_PRICE_TICKS then (inbound, e, true)
      else
        match e.asks best_ask with
        | [] => (inbound, e, false)
        | resting :: _ =>
          let r := executeTrade e inbound resting best_ask false
          matchBuyLoop fuel r.1 r.2

/-- `MatchingEngine::matchSellOrder`'s `while` loop: the mirror image against
`getBestBid`, with the break test `best_bid < price || best_bid == 0`. -/
def matchSellLoop : Nat → Order → EngineState → Order × EngineState × Bool
  | 0, inbound, e => (inbound, e, false)
  | fuel + 1, inbound, e =>
    if inbound.qty = 0 then (inbound, e, true)
    else
      let best_bid := e.bid_tracker.getBestBid
      if best_bid < inbound.price ∨ best_bid = 0 then (inbound, e, true)
      else
        match e.bids best_bid with
        | [] => (inbound, e, false)
        | resting :: _ =>
          let r := executeTrade e inbound resting best_bid true
          matchSellLoop fuel r.1 r.2

/-- Number of orders resting on one side of the book. -/
def sideCount (side : Nat → List Order) : Nat :=
  ∑ p ∈ Finset.range MAX_PRICE_TICKS, (side p).length

/-- Total number of resting orders; any fuel above this lets the matching
loops reach their own exit condition. -/
def bookOrderCount (e : EngineState) : Nat :=
  sideCount e.bids + sideCount e.asks

/-- The fuel `processNewOrder` hands to a matching loop; proved sufficient
under the engine invariant (the C++ loop is unbounded). -/
def matchFuel (e : EngineState) : Nat := bookOrderCount e + 2

/-- `MatchingEngine::processNewOrder`: allocate the inbound record, drain the
opposite book, then rest the remainder or return the record to the arena.
The boolean reports that the matching loop completed through its own exit
condition. -/
def processNewOrder (e : EngineState) (id price qty : Nat) (is_buy : Bool) :
    Except EngineError (EngineState × Bool) :=
  match allocateOrder e id price qty is_buy with
  | .error err => .error err
  | .ok (inbound, e1) =>
    let r := if is_buy then matchBuyLoop (matchFuel e1) inbound e1
             else matchSellLoop (matchFuel e1) inbound e1
    if 0 < r.1.qty then .ok (bookAddOrder r.2.1 r.1, r.2.2)
    else .ok (deallocateOrder r.2.1 r.1.slot, r.2.2)

/-- The freshly constructed engine: empty book, zeroed indices, the free
stack holding `0 .. MAX_ORDERS-1` (`free_list_[i] = MAX_ORDERS - 1 - i`). -/
def initEngine : EngineState :=
  { bids := fun _ => [], asks := fun _ => [],
    bid_tracker := { summary_word := 0, data_words := fun _ => 0 },
    ask_tracker := { summary_word := 0, data_words := fun _ => 0 },
    free_idx := MAX_ORDERS, free_list := fun i => MAX_ORDERS - 1 - i,
    trades_executed := 0, trades := [] }

/-- An inbound order as submitted by the driver. -/
structure InboundOrder where
  id : Nat
  price : Nat
  qty : Nat
  is_buy : Bool
deriving DecidableEq

/-- One driver step.  A thrown `ArenaExhausted` propagates out of
`processNewOrder` before any mutation, leaving the engine unchanged. -/
def stepRun (e : EngineState) (o : InboundOrder) : EngineState :=
  match processNewOrder e o.id o.price o.qty o.is_buy with
  | .ok r => r.1
  | .error _ => e

/-- Submit a sequence of orders to a fresh engine. -/
def run (orders : List InboundOrder) : EngineState :=
  orders.foldl stepRun initEngine

/-- The book is not crossed: every active (non-empty) bid tick is strictly
below every active ask tick; vacuously true when either side is empty. -/
def NoCross (e : EngineState) : Prop :=
  ∀ pb pa, e.bids pb ≠ [] → e.asks pa ≠ [] → pb < pa

/-- The engine invariant: both price indices are well-formed and agree with
their level queues, levels outside the tick domain are empty, and every
resting order has strictly positive remaining quantity. -/
structure EngineInv (e : EngineState) : Prop where
  bidWF : e.bid_tracker.WF
  askWF : e.ask_tracker.WF
  bidMatch : ∀ p, p < MAX_PRICE_TICKS →
    (e.bid_tracker.activeAt p = true ↔ e.bids p ≠ [])
  askMatch : ∀ p, p < MAX_PRICE_TICKS →
    (e.ask_tracker.activeAt p = true ↔ e.asks p ≠ [])
  hiEmpty : ∀ p, MAX_PRICE_TICKS ≤ p → e.bids p = [] ∧ e.asks p = []
  bidPos : ∀ p, ∀ o ∈ e.bids p, 0 < o.qty
  askPos : ∀ p, ∀ o ∈ e.asks p, 0 < o.qty

/-- Quantity resting in one level. -/
def levelQty (l : List Order) : Nat := (l.map Order.qty).sum

/-- Quantity resting on one side of the book. -/
def sideQty (side : Nat → List Order) : Nat :=
  ∑ p ∈ Finset.range MAX_PRICE_TICKS, levelQty (side p)

/-- Total quantity resting in the book. -/
def bookQty (e : EngineState) : Nat := sideQty e.bids + sideQty e.asks

/-- Total quantity filled across a list of trade events. -/
def fillSum (ts : List TradeEvent) : Nat := (ts.map TradeEvent.qty).sum

/-- Total quantity of a list of inbound orders. -/
def ordersQty (os : List InboundOrder) : Nat := (os.map InboundOrder.qty).sum

/-- A valid call per the spec's precondition: `qty > 0`, `price ∈ [0, P)`. -/
def ValidOrder (o : InboundOrder) : Prop :=
  0 < o.qty ∧ o.price < MAX_PRICE_TICKS

-- ## Pointer-accurate model of `PriceLevel` (for the claims about the
-- intrusive sibling handles themselves)

/-- A heap node: an order record with its intrusive sibling handles
(`nullptr` = `none`). -/
structure Node where
  id : Nat
  price : Nat
  qty : Nat
  is_buy : Bool
  prev : Option Nat
  next : Option Nat
deriving DecidableEq

/-- A `PriceLevel` (head/tail handles) together with the arena storage its
handles point into. -/
structure LevelState where
  heap : Nat → Node
  head : Option Nat
  tail : Option Nat

/-- `PriceLevel::pop_front` of `src/hft_engine.cpp` (lines 100–107): returns
the head handle and advances `head`; clears the new head's `prev` (or clears
`tail` when the queue emptied).  The popped node's own sibling handles are
not touched. -/
def popFront (s : LevelState) : Option Nat × LevelState :=
  match s.head with
  | none => (none, s)
  | some h =>
    match (s.heap h).next with
    | some nh =>
      let nhNode : Node := { (s.heap nh) with prev := none }
      let s' : LevelState :=
        { s with head := some nh, heap := Function.update s.heap nh nhNode }
      (some h, s')
    | none => (some h, { s with head := none, tail := none })

/-- Chain conditions of an intrusive doubly-linked FIFO holding the handles
`hs` in order: consecutive nodes point at each other and the last `next` is
null. -/
def Links (heap : Nat → Node) : List Nat → Prop
  | [] => True
  | [a] => (heap a).next = none
  | a :: b :: rest =>
    (heap a).next = some b ∧ (heap b).prev = some a ∧ Links heap (b :: rest)

/-- `s` represents the FIFO queue `hs` (handles in insertion order): `head`
and `tail` point at the ends, handles are distinct, the head's `prev` is
null, and the chain conditions hold. -/
def Represents (s : LevelState) (hs : List Nat) : Prop :=
  s.head = hs.head? ∧ s.tail = hs.getLast? ∧ hs.Nodup ∧
  (∀ a, hs.head? = some a → (s.heap a).prev = none) ∧ Links s.heap hs

/-- Everything one run of the buy-side matching loop guarantees, relative to
the entry state `e`, the inbound order, and the list `T` of trade events the
loop emitted. -/
structure BuyLoopOut (inbound : Order) (e : EngineState) (T : List TradeEvent)
    (r : Order × EngineState × Bool) : Prop where
  flag : r.2.2 = true
  inv : EngineInv r.2.1
  bids_eq : r.2.1.bids = e.bids
  bidTracker_eq : r.2.1.bid_tracker = e.bid_tracker
  id_eq : r.1.id = inbound.id
  price_eq : r.1.price = inbound.price
  buy_eq : r.1.is_buy = inbound.is_buy
  slot_eq : r.1.slot = inbound.slot
  qty_le : r.1.qty ≤ inbound.qty
  suffix_ids : ∀ p, (r.2.1.asks p).map Order.id <:+ (e.asks p).map Order.id
  break_cond : 0 < r.1.qty →
    inbound.price < r.2.1.ask_tracker.getBestAsk ∨
    r.2.1.ask_tracker.getBestAsk = MAX_PRICE_TICKS
  trades_eq : r.2.1.trades = e.trades ++ T
  count_eq : r.2.1.trades_executed = e.trades_executed + T.length
  conserve : r.1.qty + sideQty r.2.1.asks + 2 * fillSum r.2.1.trades
      = inbound.qty + sideQty e.asks + 2 * fillSum e.trades
  free_le : e.free_idx ≤ r.2.1.free_idx
  chain : List.Chain' (fun t₁ t₂ => t₁.price ≤ t₂.price) T
  bounds : ∀ t ∈ T, e.ask_tracker.getBestAsk ≤ t.price ∧
      t.price ≤ inbound.price ∧ t.price < MAX_PRICE_TICKS ∧
      t.inbound_id = inbound.id
  fifo : ∀ a, ((T.filter (fun t => t.price == a)).map TradeEvent.resting_id)
      <+: (e.asks a).map Order.id

/-- Everything one run of the sell-side matching loop guarantees (the mirror
of `BuyLoopOut`, plus: the level at tick 0 is never touched, because the
loop's break test conflates a best bid of 0 with an empty bid book). -/
structure SellLoopOut (inbound : Order) (e : EngineState) (T : List TradeEvent)
    (r : Order × EngineState × Bool) : Prop where
  flag : r.2.2 = true
  inv : EngineInv r.2.1
  asks_eq : r.2.1.asks = e.asks
  askTracker_eq : r.2.1.ask_tracker = e.ask_tracker
  id_eq : r.1.id = inbound.id
  price_eq : r.1.price = inbound.price
  buy_eq : r.1.is_buy = inbound.is_buy
  slot_eq : r.1.slot = inbound.slot
  qty_le : r.1.qty ≤ inbound.qty
  suffix_ids : ∀ p, (r.2.1.bids p).map Order.id <:+ (e.bids p).map Order.id
  bids0_eq : r.2.1.bids 0 = e.bids 0
  break_cond : 0 < r.1.qty →
    r.2.1.bid_tracker.getBestBid < inbound.price ∨
    r.2.1.bid_tracker.getBestBid = 0
  trades_eq : r.2.1.trades = e.trades ++ T
  count_eq : r.2.1.trades_executed = e.trades_executed + T.length
  conserve : r.1.qty + sideQty r.2.1.bids + 2 * fillSum r.2.1.trades
      = inbound.qty + sideQty e.bids + 2 * fillSum e.trades
  free_le : e.free_idx ≤ r.2.1.free_idx
  chain : List.Chain' (fun t₁ t₂ => t₂.price ≤ t₁.price) T
  bounds : ∀ t ∈ T, t.price ≤ e.bid_tracker.getBestBid ∧
      inbound.price ≤ t.price ∧ 0 < t.price ∧ t.price < MAX_PRICE_TICKS ∧
      t.inbound_id = inbound.id
  fifo : ∀ a, ((T.filter (fun t => t.price == a)).map TradeEvent.resting_id)
      <+: (e.bids a).map Order.id

-- ### basic bit lemmas

theorem ctzAux_spec (fuel : Nat) :
    ∀ n, n ≠ 0 → n < 2 ^ fuel →
      n.testBit (ctzAux fuel n) = true ∧
      ∀ k, k < ctzAux fuel n → n.testBit k = false := by
  induction fuel with
  | zero =>
    intro n hn hlt
    simp only [pow_zero, Nat.lt_one_iff] at hlt
    exact absurd hlt hn
  | succ fuel ih =>
    intro n hn hlt
    by_cases hpar : n % 2 = 1
    · constructor
      · simp [ctzAux, hpar]
      · intro k hk
        simp [ctzAux, hpar] at hk
    · have hmod : n % 2 = 0 := by omega
      have hne : n / 2 ≠ 0 := by omega
      have hlt2 : n / 2 < 2 ^ fuel := by
        apply Nat.div_lt_of_lt_mul
        rw [pow_succ'] at hlt
        exact hlt
      obtain ⟨h1, h2⟩ := ih (n / 2) hne hlt2
      have heq : ctzAux (fuel + 1) n = ctzAux fuel (n / 2) + 1 := by
        simp [ctzAux, hpar]
      refine ⟨?_, ?_⟩
      · rw [heq, Nat.testBit_add_one]
        exact h1
      · intro k hk
        rw [heq] at hk
        match k with
        | 0 => simp [hmod]
        | j + 1 =>
          rw [Nat.testBit_add_one]
          exact h2 j (by omega)

theorem ctz64_spec {n : Nat} (hn : n ≠ 0) (hlt : n < 2 ^ 64) :
    n.testBit (ctz64 n) = true ∧ ∀ k, k < ctz64 n → n.testBit k = false :=
  ctzAux_spec 64 n hn hlt

theorem ctz64_lt {n : Nat} (hn : n ≠ 0) (hlt : n < 2 ^ 64) : ctz64 n < 64 := by
  by_contra h64
  have hbit := (ctz64_spec hn hlt).1
  have hfls : n.testBit (ctz64 n) = false := by
    apply Nat.testBit_lt_two_pow
    calc n < 2 ^ 64 := hlt
    _ ≤ 2 ^ ctz64 n := Nat.pow_le_pow_right (by norm_num) (by omega)
  rw [hbit] at hfls
  exact Bool.noConfusion hfls

theorem msb64_testBit {n : Nat} (hn : n ≠ 0) : n.testBit (msb64 n) = true := by
  have h1 : 2 ^ Nat.log2 n ≤ n := Nat.log2_self_le hn
  have h2 : n < 2 ^ (Nat.log2 n + 1) := Nat.lt_log2_self
  have hdiv : n / 2 ^ Nat.log2 n = 1 := by
    apply Nat.div_eq_of_lt_le
    · omega
    · rw [pow_succ] at h2
      omega
  rw [msb64, Nat.testBit_to_div_mod, hdiv]
  rfl

theorem msb64_lt {n : Nat} (hn : n ≠ 0) (hlt : n < 2 ^ 64) : msb64 n < 64 :=
  (Nat.log2_lt hn).mpr hlt

theorem testBit_le_msb64 {n k : Nat} (h : n.testBit k = true) : k ≤ msb64 n := by
  have hge : 2 ^ k ≤ n := Nat.testBit_implies_ge h
  have hn : n ≠ 0 := by
    have : 0 < 2 ^ k := Nat.pos_pow_of_pos k (by norm_num)
    omega
  exact (Nat.le_log2 hn).mpr hge

-- ### effect of set / clear on the active-bit predicate

theorem activeAt_setPriceLevel (t : FastPriceTracker) {p q : Nat}
    (hp : p < MAX_PRICE_TICKS) (hq : q < MAX_PRICE_TICKS) :
    (t.setPriceLevel p).activeAt q = (t.activeAt q || q == p) := by
  simp only [MAX_PRICE_TICKS] at hp hq
  simp only [FastPriceTracker.setPriceLevel, FastPriceTracker.activeAt]
  by_cases hw : q / 64 = p / 64
  · rw [hw, Function.update_same]
    simp only [Nat.testBit_or, Nat.one_shiftLeft, Nat.testBit_two_pow]
    by_cases hb : q % 64 = p % 64
    · have hqp : q = p := by omega
      subst hqp
      simp
    · have hqp : q ≠ p := by omega
      have h1 : (q == p) = false := by simp [hqp]
      have h2 : (decide (p % 64 = q % 64)) = false := by
        simp
        omega
      rw [h1, h2, Bool.or_false]
  · rw [Function.update_noteq (fun h => hw h)]
    have hqp : q ≠ p := by omega
    have h1 : (q == p) = false := by simp [hqp]
    rw [h1, Bool.or_false]

theorem activeAt_clearPriceLevel (t : FastPriceTracker) {p q : Nat}
    (hp : p < MAX_PRICE_TICKS) (hq : q < MAX_PRICE_TICKS) :
    (t.clearPriceLevel p).activeAt q = (t.activeAt q && !(q == p)) := by
  simp only [MAX_PRICE_TICKS] at hp hq
  simp only [FastPriceTracker.clearPriceLevel, FastPriceTracker.activeAt]
  have h64 : q % 64 < 64 := Nat.mod_lt _ (by norm_num)
  by_cases hw : q / 64 = p / 64
  · rw [hw, Function.update_same]
    simp only [Nat.testBit_and, Nat.testBit_xor, Nat.one_shiftLeft,
      Nat.testBit_two_pow, Nat.testBit_two_pow_sub_one]
    by_cases hb : q % 64 = p % 64
    · have hqp : q = p := by omega
      subst hqp
      simp [h64]
    · have hqp : q ≠ p := by omega
      have h1 : (q == p) = false := by simp [hqp]
      have h2 : (decide (p % 64 = q % 64)) = false := by
        simp
        omega
      have h3 : (decide (q % 64 < 64)) = true := by simp [h64]
      rw [h1, h2, h3]
      simp
  · rw [Function.update_noteq (fun h => hw h)]
    have hqp : q ≠ p := by omega
    have h1 : (q == p) = false := by simp [hqp]
    rw [h1]
    simp

-- ### well-formedness is preserved by set / clear

theorem WF_setPriceLevel {t : FastPriceTracker} (hwf : t.WF) {p : Nat}
    (hp : p < MAX_PRICE_TICKS) : (t.setPriceLevel p).WF := by
  obtain ⟨hs, hd, hhi, hinv⟩ := hwf
  simp only [MAX_PRICE_TICKS] at hp
  have hpw : p / 64 < 64 := by omega
  have hpb : p % 64 < 64 := Nat.mod_lt _ (by norm_num)
  simp only [FastPriceTracker.setPriceLevel, FastPriceTracker.WF]
  refine ⟨?_, ?_, ?_, ?_⟩
  · exact Nat.or_lt_two_pow hs
      (by rw [Nat.one_shiftLeft]; exact Nat.pow_lt_pow_right (by norm_num) hpw)
  · intro w
    by_cases hwp : w = p / 64
    · subst hwp
      rw [Function.update_same]
      exact Nat.or_lt_two_pow (hd _)
        (by rw [Nat.one_shiftLeft]; exact Nat.pow_lt_pow_right (by norm_num) hpb)
    · rw [Function.update_noteq hwp]
      exact hd w
  · intro w hw64
    rw [Function.update_noteq (by omega)]
    exact hhi w hw64
  · intro w hw64
    rw [Nat.testBit_or, Nat.one_shiftLeft, Nat.testBit_two_pow]
    by_cases hwp : w = p / 64
    · subst hwp
      rw [Function.update_same]
      simp only [decide_True, Bool.or_true, true_iff]
      intro h0
      have : (t.data_words (p / 64) ||| 1 <<< (p % 64)).testBit (p % 64) = true := by
        rw [Nat.testBit_or, Nat.one_shiftLeft, Nat.testBit_two_pow_self, Bool.or_true]
      rw [h0] at this
      rw [Nat.zero_testBit] at this
      exact Bool.noConfusion this
    · rw [Function.update_noteq hwp]
      have : (decide (p / 64 = w)) = false := by
        simp
        omega
      rw [this, Bool.or_false]
      exact hinv w hw64

theorem WF_clearPriceLevel {t : FastPriceTracker} (hwf : t.WF) {p : Nat}
    (hp : p < MAX_PRICE_TICKS) : (t.clearPriceLevel p).WF := by
  obtain ⟨hs, hd, hhi, hinv⟩ := hwf
  simp only [MAX_PRICE_TICKS] at hp
  have hpw : p / 64 < 64 := by omega
  simp only [FastPriceTracker.clearPriceLevel, FastPriceTracker.WF]
  refine ⟨?_, ?_, ?_, ?_⟩
  · split
    · exact Nat.and_lt_two_pow _ (Nat.xor_lt_two_pow (by omega)
        (by rw [Nat.one_shiftLeft]; exact Nat.pow_lt_pow_right (by norm_num) hpw))
    · exact hs
  · intro w
    by_cases hwp : w = p / 64
    · subst hwp
      rw [Function.update_same]
      exact Nat.and_lt_two_pow _ (Nat.xor_lt_two_pow (by omega)
        (by
          rw [Nat.one_shiftLeft]
          exact Nat.pow_lt_pow_right (by norm_num) (Nat.mod_lt _ (by norm_num))))
    · rw [Function.update_noteq hwp]
      exact hd w
  · intro w hw64
    rw [Function.update_noteq (by omega)]
    exact hhi w hw64
  · intro w hw64
    by_cases hwp : w = p / 64
    · subst hwp
      rw [Function.update_same]
      split
      · rename_i hdw0
        rw [hdw0]
        rw [Nat.testBit_and, Nat.testBit_xor, Nat.one_shiftLeft,
          Nat.testBit_two_pow_self, Nat.testBit_two_pow_sub_one]
        simp [hpw]
      · rename_i hdw0
        constructor
        · intro _
          exact hdw0
        · intro _
          have hdnz : t.data_words (p / 64) ≠ 0 := by
            intro h0
            apply hdw0
            rw [h0]
            rw [Nat.zero_and]
          exact (hinv _ hw64).mpr hdnz
    · rw [Function.update_noteq hwp]
      split
      · rw [Nat.testBit_and, Nat.testBit_xor, Nat.one_shiftLeft, Nat.testBit_two_pow,
          Nat.testBit_two_pow_sub_one]
        have h1 : (decide (p / 64 = w)) = false := by
          simp
          omega
        have h2 : (decide (w < 64)) = true := by simp [hw64]
        rw [h1, h2]
        simp only [Bool.xor_false, Bool.and_true]
        exact hinv w hw64
      · exact hinv w hw64

-- ### best-price queries under well-formedness

theorem activeAt_false_of_summary_zero {t : FastPriceTracker} (hwf : t.WF)
    (h : t.summary_word = 0) (q : Nat) : t.activeAt q = false := by
  obtain ⟨_, _, hhi, hinv⟩ := hwf
  unfold FastPriceTracker.activeAt
  have hz : t.data_words (q / 64) = 0 := by
    by_cases hq : q / 64 < 64
    · by_contra hnz
      have := (hinv _ hq).mpr hnz
      rw [h, Nat.zero_testBit] at this
      exact Bool.noConfusion this
    · exact hhi _ (by omega)
  rw [hz]
  exact Nat.zero_testBit _

theorem getBestAsk_spec {t : FastPriceTracker} (hwf : t.WF)
    (h : t.summary_word ≠ 0) :
    t.getBestAsk < MAX_PRICE_TICKS ∧ t.activeAt t.getBestAsk = true ∧
      ∀ q, q < t.getBestAsk → t.activeAt q = false := by
  obtain ⟨hs, hd, hhi, hinv⟩ := hwf
  obtain ⟨hw1, hw2⟩ := ctz64_spec h hs
  have hwlt : ctz64 t.summary_word < 64 := ctz64_lt h hs
  have hdw : t.data_words (ctz64 t.summary_word) ≠ 0 := (hinv _ hwlt).mp hw1
  obtain ⟨hb1, hb2⟩ := ctz64_spec hdw (hd _)
  have hblt : ctz64 (t.data_words (ctz64 t.summary_word)) < 64 :=
    ctz64_lt hdw (hd _)
  have hga : t.getBestAsk
      = ctz64 t.summary_word * 64 + ctz64 (t.data_words (ctz64 t.summary_word)) := by
    simp [FastPriceTracker.getBestAsk, h]
  refine ⟨?_, ?_, ?_⟩
  · rw [hga]
    simp only [MAX_PRICE_TICKS]
    omega
  · rw [hga]
    unfold FastPriceTracker.activeAt
    have hdiv : (ctz64 t.summary_word * 64
        + ctz64 (t.data_words (ctz64 t.summary_word))) / 64
        = ctz64 t.summary_word := by omega
    have hmod : (ctz64 t.summary_word * 64
        + ctz64 (t.data_words (ctz64 t.summary_word))) % 64
        = ctz64 (t.data_words (ctz64 t.summary_word)) := by omega
    rw [hdiv, hmod]
    exact hb1
  · intro q hq
    rw [hga] at hq
    unfold FastPriceTracker.activeAt
    rcases Nat.lt_or_ge (q / 64) (ctz64 t.summary_word) with hlt | hge
    · have hsb : t.summary_word.testBit (q / 64) = false := hw2 _ hlt
      have hz : t.data_words (q / 64) = 0 := by
        by_contra hnz
        have := (hinv (q / 64) (by omega)).mpr hnz
        rw [hsb] at this
        exact Bool.noConfusion this
      rw [hz]
      exact Nat.zero_testBit _
    · have heq : q / 64 = ctz64 t.summary_word := by omega
      have hqm : q % 64 < ctz64 (t.data_words (ctz64 t.summary_word)) := by omega
      rw [heq]
      exact hb2 _ hqm

theorem getBestBid_spec {t : FastPriceTracker} (hwf : t.WF)
    (h : t.summary_word ≠ 0) :
    t.getBestBid < MAX_PRICE_TICKS ∧ t.activeAt t.getBestBid = true ∧
      ∀ q, t.activeAt q = true → q ≤ t.getBestBid := by
  obtain ⟨hs, hd, hhi, hinv⟩ := hwf
  have hw1 : t.summary_word.testBit (msb64 t.summary_word) = true := msb64_testBit h
  have hwlt : msb64 t.summary_word < 64 := msb64_lt h hs
  have hdw : t.data_words (msb64 t.summary_word) ≠ 0 := (hinv _ hwlt).mp hw1
  have hb1 : (t.data_words (msb64 t.summary_word)).testBit
      (msb64 (t.data_words (msb64 t.summary_word))) = true := msb64_testBit hdw
  have hblt : msb64 (t.data_words (msb64 t.summary_word)) < 64 :=
    msb64_lt hdw (hd _)
  have hgb : t.getBestBid
      = msb64 t.summary_word * 64 + msb64 (t.data_words (msb64 t.summary_word)) := by
    simp [FastPriceTracker.getBestBid, h]
  refine ⟨?_, ?_, ?_⟩
  · rw [hgb]
    simp only [MAX_PRICE_TICKS]
    omega
  · rw [hgb]
    unfold FastPriceTracker.activeAt
    have hdiv : (msb64 t.summary_word * 64
        + msb64 (t.data_words (msb64 t.summary_word))) / 64
        = msb64 t.summary_word := by omega
    have hmod : (msb64 t.summary_word * 64
        + msb64 (t.data_words (msb64 t.summary_word))) % 64
        = msb64 (t.data_words (msb64 t.summary_word)) := by omega
    rw [hdiv, hmod]
    exact hb1
  · intro q hq
    unfold FastPriceTracker.activeAt at hq
    have hq64 : q / 64 < 64 := by
      by_contra hge
      rw [hhi (q / 64) (by omega), Nat.zero_testBit] at hq
      exact Bool.noConfusion hq
    have hdnz : t.data_words (q / 64) ≠ 0 := by
      intro h0
      rw [h0, Nat.zero_testBit] at hq
      exact Bool.noConfusion hq
    have hsb : t.summary_word.testBit (q / 64) = true := (hinv _ hq64).mpr hdnz
    have hwle : q / 64 ≤ msb64 t.summary_word := testBit_le_msb64 hsb
    rcases Nat.lt_or_ge (q / 64) (msb64 t.summary_word) with hlt | hge
    · rw [hgb]
      omega
    · have heq : q / 64 = msb64 t.summary_word := by omega
      have hble : q % 64 ≤ msb64 (t.data_words (msb64 t.summary_word)) := by
        apply testBit_le_msb64
        rw [← heq]
        exact hq
      rw [hgb]
      omega

theorem getBestAsk_lt_iff {t : FastPriceTracker} (hwf : t.WF) :
    t.getBestAsk < MAX_PRICE_TICKS ↔ t.summary_word ≠ 0 := by
  constructor
  · intro hlt h0
    rw [FastPriceTracker.getBestAsk, if_pos h0] at hlt
    exact absurd hlt (lt_irrefl _)
  · intro h
    exact (getBestAsk_spec hwf h).1

-- ### idempotence of the index operations

theorem FastPriceTracker.ext' {t₁ t₂ : FastPriceTracker}
    (h1 : t₁.summary_word = t₂.summary_word)
    (h2 : ∀ w, t₁.data_words w = t₂.data_words w) : t₁ = t₂ := by
  cases t₁
  cases t₂
  simp only [FastPriceTracker.mk.injEq]
  exact ⟨h1, funext h2⟩

theorem or_mask_idem (x m : Nat) : (x ||| m) ||| m = x ||| m := by
  rw [Nat.or_assoc, Nat.or_self]

theorem and_mask_idem (x m : Nat) : (x &&& m) &&& m = x &&& m := by
  rw [Nat.and_assoc, Nat.and_self]

theorem and_mask_of_testBit_false {x b : Nat} (hx : x < 2 ^ 64) (hb : b < 64)
    (h : x.testBit b = false) : x &&& ((2 ^ 64 - 1) ^^^ (1 <<< b)) = x := by
  apply Nat.eq_of_testBit_eq
  intro i
  rw [Nat.testBit_and, Nat.testBit_xor, Nat.one_shiftLeft, Nat.testBit_two_pow,
    Nat.testBit_two_pow_sub_one]
  by_cases hib : i = b
  · subst hib
    simp [h, hb]
  · by_cases hi64 : i < 64
    · have h1 : (decide (i < 64)) = true := by simp [hi64]
      have h2 : (decide (b = i)) = false := by
        simp
        omega
      rw [h1, h2]
      simp
    · have h1 : (decide (i < 64)) = false := by simp [hi64]
      have h2 : (decide (b = i)) = false := by
        simp
        omega
      rw [h1, h2]
      have : x.testBit i = false := by
        apply Nat.testBit_lt_two_pow
        calc x < 2 ^ 64 := hx
        _ ≤ 2 ^ i := Nat.pow_le_pow_right (by norm_num) (by omega)
      rw [this]
      rfl

theorem setPriceLevel_idem (t : FastPriceTracker) (p : Nat) :
    (t.setPriceLevel p).setPriceLevel p = t.setPriceLevel p := by
  apply FastPriceTracker.ext'
  · simp only [FastPriceTracker.setPriceLevel]
    exact or_mask_idem _ _
  · intro w
    simp only [FastPriceTracker.setPriceLevel]
    by_cases hw : w = p / 64
    · subst hw
      rw [Function.update_idem, Function.update_same, Function.update_same,
        or_mask_idem]
    · rw [Function.update_noteq hw, Function.update_noteq hw]

theorem clearPriceLevel_idem (t : FastPriceTracker) (p : Nat) :
    (t.clearPriceLevel p).clearPriceLevel p = t.clearPriceLevel p := by
  have hdata : (t.clearPriceLevel p).data_words (p / 64)
      = t.data_words (p / 64) &&& ((2 ^ 64 - 1) ^^^ (1 <<< (p % 64))) := by
    simp only [FastPriceTracker.clearPriceLevel]
    rw [Function.update_same]
  apply FastPriceTracker.ext'
  · simp only [FastPriceTracker.clearPriceLevel]
    rw [Function.update_same, and_mask_idem]
    split
    · exact and_mask_idem _ _
    · rfl
  · intro w
    by_cases hw : w = p / 64
    · subst hw
      simp only [FastPriceTracker.clearPriceLevel]
      rw [Function.update_idem, Function.update_same, Function.update_same,
        and_mask_idem]
    · simp only [FastPriceTracker.clearPriceLevel]
      rw [Function.update_noteq hw, Function.update_noteq hw]

theorem clearPriceLevel_inactive {t : FastPriceTracker} (hwf : t.WF) {p : Nat}
    (hp : p < MAX_PRICE_TICKS) (h : t.activeAt p = false) :
    t.clearPriceLevel p = t := by
  obtain ⟨hs, hd, _, hinv⟩ := hwf
  simp only [MAX_PRICE_TICKS] at hp
  have hpw : p / 64 < 64 := by omega
  have hpb : p % 64 < 64 := Nat.mod_lt _ (by norm_num)
  unfold FastPriceTracker.activeAt at h
  have hdw : t.data_words (p / 64) &&& ((2 ^ 64 - 1) ^^^ (1 <<< (p % 64)))
      = t.data_words (p / 64) := and_mask_of_testBit_false (hd _) hpb h
  apply FastPriceTracker.ext'
  · simp only [FastPriceTracker.clearPriceLevel]
    rw [hdw]
    split
    · rename_i h0
      have hsb : t.summary_word.testBit (p / 64) = false := by
        cases hsb2 : t.summary_word.testBit (p / 64)
        · rfl
        · exact absurd ((hinv _ hpw).mp hsb2 h0) (fun hx => hx)
      exact and_mask_of_testBit_false hs hpw hsb
    · rfl
  · intro w
    simp only [FastPriceTracker.clearPriceLevel]
    by_cases hw : w = p / 64
    · subst hw
      rw [Function.update_same, hdw]
    · rw [Function.update_noteq hw]

-- ### pointer-level `pop_front`

theorem Links_congr {heap heap' : Nat → Node} :
    ∀ (hs : List Nat), (∀ a ∈ hs, heap' a = heap a) →
      Links heap hs → Links heap' hs
  | [] => fun _ _ => trivial
  | [a] => fun hag hl => by
      simp only [Links] at hl ⊢
      rw [hag a (by simp)]
      exact hl
  | a :: b :: rest => fun hag hl => by
      obtain ⟨h1, h2, h3⟩ := hl
      refine ⟨?_, ?_, ?_⟩
      · rw [hag a (by simp)]
        exact h1
      · rw [hag b (by simp)]
        exact h2
      · exact Links_congr (b :: rest)
          (fun x hx => hag x (List.mem_cons_of_mem a hx)) h3

theorem Links_head_next {heap heap' : Nat → Node} {b : Nat} (rest' : List Nat)
    (hn : (heap' b).next = (heap b).next)
    (hag : ∀ x ∈ rest', heap' x = heap x)
    (hl : Links heap (b :: rest')) : Links heap' (b :: rest') := by
  cases rest' with
  | nil =>
    simp only [Links] at hl ⊢
    rw [hn]
    exact hl
  | cons c rest'' =>
    obtain ⟨h1, h2, h3⟩ := hl
    refine ⟨?_, ?_, ?_⟩
    · rw [hn]
      exact h1
    · rw [hag c (by simp)]
      exact h2
    · exact Links_congr (c :: rest'') (fun x hx => hag x hx) h3

theorem popFront_of_empty {s : LevelState} (hr : Represents s []) :
    popFront s = (none, s) := by
  obtain ⟨hhead, -, -, -, -⟩ := hr
  simp only [List.head?_nil] at hhead
  unfold popFront
  rw [hhead]

theorem popFront_cons {s : LevelState} {h : Nat} {rest : List Nat}
    (hr : Represents s (h :: rest)) :
    (popFront s).1 = some h ∧
    Represents (popFront s).2 rest ∧
    ((popFront s).2.heap h).prev = none ∧
    ((popFront s).2.heap h).next = rest.head? := by
  obtain ⟨hhead, htail, hnodup, hprev, hlinks⟩ := hr
  simp only [List.head?_cons] at hhead
  have hprev0 : (s.heap h).prev = none := hprev h rfl
  cases rest with
  | nil =>
    have hnext : (s.heap h).next = none := hlinks
    have hpf : popFront s = (some h, { s with head := none, tail := none }) := by
      simp only [popFront, hhead, hnext]
    rw [hpf]
    refine ⟨rfl, ⟨by simp, by simp, List.nodup_nil, ?_, trivial⟩, hprev0,
      by simp [hnext]⟩
    intro a ha
    exact Option.noConfusion ha
  | cons b rest' =>
    obtain ⟨hnext, hprevb, hlinks'⟩ := hlinks
    have hb : h ≠ b := by
      rw [List.nodup_cons] at hnodup
      intro hx
      apply hnodup.1
      rw [hx]
      exact List.mem_cons_self b rest'
    have hbn : b ∉ rest' := by
      rw [List.nodup_cons] at hnodup
      exact (List.nodup_cons.mp hnodup.2).1
    have hpf : popFront s = (some h,
        { s with head := some b,
                 heap := Function.update s.heap b { (s.heap b) with prev := none } }) := by
      simp only [popFront, hhead, hnext]
    have hfst : (popFront s).1 = some h := by rw [hpf]
    have hheap2 : (popFront s).2.heap
        = Function.update s.heap b { (s.heap b) with prev := none } := by rw [hpf]
    have hhead2 : (popFront s).2.head = some b := by rw [hpf]
    have htail2 : (popFront s).2.tail = s.tail := by rw [hpf]
    have hne : ∀ x ∈ rest', x ≠ b := by
      intro x hx hxb
      apply hbn
      rw [← hxb]
      exact hx
    refine ⟨hfst, ⟨?_, ?_, ?_, ?_, ?_⟩, ?_, ?_⟩
    · rw [hhead2, List.head?_cons]
    · rw [htail2, htail]
      exact List.getLast?_cons_cons
    · exact (List.nodup_cons.mp hnodup).2
    · intro a ha
      simp only [List.head?_cons, Option.some.injEq] at ha
      subst ha
      rw [hheap2, Function.update_same]
    · rw [hheap2]
      apply Links_head_next rest'
      · rw [Function.update_same]
      · intro x hx
        exact Function.update_noteq (hne x hx) _ _
      · exact hlinks'
    · rw [hheap2, Function.update_noteq hb]
      exact hprev0
    · rw [hheap2, Function.update_noteq hb, hnext, List.head?_cons]

-- ### sums over the book

theorem sum_update_general {N a : Nat} (ha : a < N) (f : Nat → Nat) (v : Nat) :
    (∑ p ∈ Finset.range N, Function.update f a v p) + f a
      = (∑ p ∈ Finset.range N, f p) + v := by
  have hmem : a ∈ Finset.range N := Finset.mem_range.mpr ha
  rw [Finset.sum_update_of_mem hmem,
    Finset.sum_eq_sum_diff_singleton_add hmem f]
  omega

theorem sideQty_update {a : Nat} (ha : a < MAX_PRICE_TICKS)
    (f : Nat → List Order) (l : List Order) :
    sideQty (Function.update f a l) + levelQty (f a)
      = sideQty f + levelQty l := by
  unfold sideQty
  have hcong : ∀ p ∈ Finset.range MAX_PRICE_TICKS,
      levelQty (Function.update f a l p)
        = Function.update (fun q => levelQty (f q)) a (levelQty l) p := by
    intro p _
    by_cases hp : p = a
    · subst hp
      rw [Function.update_same, Function.update_same]
    · rw [Function.update_noteq hp, Function.update_noteq hp]
  rw [Finset.sum_congr rfl hcong]
  exact sum_update_general ha (fun q => levelQty (f q)) (levelQty l)

theorem sideCount_update {a : Nat} (ha : a < MAX_PRICE_TICKS)
    (f : Nat → List Order) (l : List Order) :
    sideCount (Function.update f a l) + (f a).length
      = sideCount f + l.length := by
  unfold sideCount
  have hcong : ∀ p ∈ Finset.range MAX_PRICE_TICKS,
      (Function.update f a l p).length
        = Function.update (fun q => (f q).length) a l.length p := by
    intro p _
    by_cases hp : p = a
    · subst hp
      rw [Function.update_same, Function.update_same]
    · rw [Function.update_noteq hp, Function.update_noteq hp]
  rw [Finset.sum_congr rfl hcong]
  exact sum_update_general ha (fun q => (f q).length) l.length

-- ### level queries under the engine invariant

theorem asks_empty_of_summary_zero {e : EngineState} (hInv : EngineInv e)
    (h : e.ask_tracker.summary_word = 0) : ∀ q, e.asks q = [] := by
  intro q
  by_cases hq : q < MAX_PRICE_TICKS
  · by_contra hne
    have := (hInv.askMatch q hq).mpr hne
    rw [activeAt_false_of_summary_zero hInv.askWF h] at this
    exact Bool.noConfusion this
  · exact (hInv.hiEmpty q (by omega)).2

theorem bids_empty_of_summary_zero {e : EngineState} (hInv : EngineInv e)
    (h : e.bid_tracker.summary_word = 0) : ∀ q, e.bids q = [] := by
  intro q
  by_cases hq : q < MAX_PRICE_TICKS
  · by_contra hne
    have := (hInv.bidMatch q hq).mpr hne
    rw [activeAt_false_of_summary_zero hInv.bidWF h] at this
    exact Bool.noConfusion this
  · exact (hInv.hiEmpty q (by omega)).1

theorem asks_getBestAsk {e : EngineState} (hInv : EngineInv e)
    (h : e.ask_tracker.summary_word ≠ 0) :
    e.ask_tracker.getBestAsk < MAX_PRICE_TICKS ∧
    e.asks e.ask_tracker.getBestAsk ≠ [] ∧
    ∀ q, q < e.ask_tracker.getBestAsk → e.asks q = [] := by
  obtain ⟨hlt, hact, hmin⟩ := getBestAsk_spec hInv.askWF h
  refine ⟨hlt, (hInv.askMatch _ hlt).mp hact, ?_⟩
  intro q hq
  by_contra hne
  have := (hInv.askMatch q (by omega)).mpr hne
  rw [hmin q hq] at this
  exact Bool.noConfusion this

theorem bids_getBestBid {e : EngineState} (hInv : EngineInv e)
    (h : e.bid_tracker.summary_word ≠ 0) :
    e.bid_tracker.getBestBid < MAX_PRICE_TICKS ∧
    e.bids e.bid_tracker.getBestBid ≠ [] ∧
    ∀ q, e.bids q ≠ [] → q ≤ e.bid_tracker.getBestBid := by
  obtain ⟨hlt, hact, hmax⟩ := getBestBid_spec hInv.bidWF h
  refine ⟨hlt, (hInv.bidMatch _ hlt).mp hact, ?_⟩
  intro q hne
  by_cases hq : q < MAX_PRICE_TICKS
  · exact hmax q ((hInv.bidMatch q hq).mpr hne)
  · exact absurd ((hInv.hiEmpty q (by omega)).1) hne

-- ### effect of one trade (ask side: inbound buy)

theorem executeTrade_ask_full {e : EngineState} {inbound resting : Order}
    {a : Nat} {lrest : List Order} (hInv : EngineInv e)
    (ha : a < MAX_PRICE_TICKS) (hl : e.asks a = resting :: lrest)
    (hfull : resting.qty ≤ inbound.qty) :
    let r := executeTrade e inbound resting a false
    r.1 = { inbound with qty := inbound.qty - resting.qty } ∧
    r.2.asks = Function.update e.asks a lrest ∧
    r.2.bids = e.bids ∧
    r.2.bid_tracker = e.bid_tracker ∧
    r.2.ask_tracker = (if lrest = [] then e.ask_tracker.clearPriceLevel a
                       else e.ask_tracker) ∧
    r.2.trades = e.trades ++ [{ inbound_id := inbound.id,
                                resting_id := resting.id,
                                price := a, qty := resting.qty }] ∧
    r.2.trades_executed = e.trades_executed + 1 ∧
    r.2.free_idx = e.free_idx + 1 ∧
    EngineInv r.2 := by
  intro r
  have hmin : min inbound.qty resting.qty = resting.qty := Nat.min_eq_right hfull
  have hO : r.1 = { inbound with qty := inbound.qty - resting.qty } := by
    show (executeTrade e inbound resting a false).1 = _
    simp [executeTrade, hmin]
  have hE : r.2 =
      { bids := e.bids,
        asks := Function.update e.asks a lrest,
        bid_tracker := e.bid_tracker,
        ask_tracker := (if lrest = [] then e.ask_tracker.clearPriceLevel a
                        else e.ask_tracker),
        free_idx := e.free_idx + 1,
        free_list := Function.update e.free_list e.free_idx resting.slot,
        trades_executed := e.trades_executed + 1,
        trades := e.trades ++ [{ inbound_id := inbound.id,
                                 resting_id := resting.id,
                                 price := a, qty := resting.qty }] } := by
    show (executeTrade e inbound resting a false).2 = _
    by_cases hrest : lrest = []
    · simp [executeTrade, deallocateOrder, hmin, hl, hrest]
    · simp [executeTrade, deallocateOrder, hmin, hl, hrest]
  refine ⟨hO, by rw [hE], by rw [hE], by rw [hE], by rw [hE], by rw [hE],
    by rw [hE], by rw [hE], ?_⟩
  have hmem : ∀ o ∈ lrest, o ∈ e.asks a := by
    intro o ho
    rw [hl]
    exact List.mem_cons_of_mem resting ho
  rw [hE]
  constructor
  · exact hInv.bidWF
  · split
    · exact WF_clearPriceLevel hInv.askWF ha
    · exact hInv.askWF
  · exact hInv.bidMatch
  · intro p hp
    dsimp only
    by_cases hpa : p = a
    · subst hpa
      rw [Function.update_same]
      split
      · rename_i hrest
        rw [activeAt_clearPriceLevel _ hp hp]
        simp [hrest]
      · rename_i hrest
        have hact : e.ask_tracker.activeAt p = true := by
          apply (hInv.askMatch p hp).mpr
          rw [hl]
          exact List.cons_ne_nil _ _
        rw [hact]
        simp [hrest]
    · rw [Function.update_noteq hpa]
      split
      · rw [activeAt_clearPriceLevel _ ha hp]
        have hb : (p == a) = false := by simp [hpa]
        rw [hb]
        simp only [Bool.not_false, Bool.and_true]
        exact hInv.askMatch p hp
      · exact hInv.askMatch p hp
  · intro p hp
    dsimp only
    have hpa : p ≠ a := by omega
    rw [Function.update_noteq hpa]
    exact hInv.hiEmpty p hp
  · exact hInv.bidPos
  · intro p o ho
    dsimp only at ho
    by_cases hpa : p = a
    · subst hpa
      rw [Function.update_same] at ho
      exact hInv.askPos _ o (hmem o ho)
    · rw [Function.update_noteq hpa] at ho
      exact hInv.askPos _ o ho

theorem executeTrade_ask_partial {e : EngineState} {inbound resting : Order}
    {a : Nat} {lrest : List Order} (hInv : EngineInv e)
    (ha : a < MAX_PRICE_TICKS) (hl : e.asks a = resting :: lrest)
    (hpart : inbound.qty < resting.qty) :
    let r := executeTrade e inbound resting a false
    r.1 = { inbound with qty := 0 } ∧
    r.2.asks = Function.update e.asks a
      ({ resting with qty := resting.qty - inbound.qty } :: lrest) ∧
    r.2.bids = e.bids ∧
    r.2.bid_tracker = e.bid_tracker ∧
    r.2.ask_tracker = e.ask_tracker ∧
    r.2.trades = e.trades ++ [{ inbound_id := inbound.id,
                                resting_id := resting.id,
                                price := a, qty := inbound.qty }] ∧
    r.2.trades_executed = e.trades_executed + 1 ∧
    r.2.free_idx = e.free_idx ∧
    EngineInv r.2 := by
  intro r
  have hmin : min inbound.qty resting.qty = inbound.qty :=
    Nat.min_eq_left (Nat.le_of_lt hpart)
  have hcond : ¬ (resting.qty - inbound.qty = 0) := by omega
  have hO : r.1 = { inbound with qty := 0 } := by
    show (executeTrade e inbound resting a false).1 = _
    simp [executeTrade, hmin, hcond]
  have hE : r.2 =
      { bids := e.bids,
        asks := Function.update e.asks a
          ({ resting with qty := resting.qty - inbound.qty } :: lrest),
        bid_tracker := e.bid_tracker,
        ask_tracker := e.ask_tracker,
        free_idx := e.free_idx,
        free_list := e.free_list,
        trades_executed := e.trades_executed + 1,
        trades := e.trades ++ [{ inbound_id := inbound.id,
                                 resting_id := resting.id,
                                 price := a, qty := inbound.qty }] } := by
    show (executeTrade e inbound resting a false).2 = _
    simp [executeTrade, hmin, hl, hcond]
  refine ⟨hO, by rw [hE], by rw [hE], by rw [hE], by rw [hE], by rw [hE],
    by rw [hE], by rw [hE], ?_⟩
  rw [hE]
  constructor
  · exact hInv.bidWF
  · exact hInv.askWF
  · exact hInv.bidMatch
  · intro p hp
    dsimp only
    by_cases hpa : p = a
    · subst hpa
      rw [Function.update_same]
      have hact : e.ask_tracker.activeAt p = true := by
        apply (hInv.askMatch p hp).mpr
        rw [hl]
        exact List.cons_ne_nil _ _
      rw [hact]
      simp
    · rw [Function.update_noteq hpa]
      exact hInv.askMatch p hp
  · intro p hp
    dsimp only
    have hpa : p ≠ a := by omega
    rw [Function.update_noteq hpa]
    exact hInv.hiEmpty p hp
  · exact hInv.bidPos
  · intro p o ho
    dsimp only at ho
    by_cases hpa : p = a
    · subst hpa
      rw [Function.update_same] at ho
      rcases List.mem_cons.mp ho with hh | ht
      · subst hh
        simp
        omega
      · apply hInv.askPos p o
        rw [hl]
        exact List.mem_cons_of_mem resting ht
    · rw [Function.update_noteq hpa] at ho
      exact hInv.askPos _ o ho

-- ### effect of one trade (bid side: inbound sell)

theorem executeTrade_bid_full {e : EngineState} {inbound resting : Order}
    {a : Nat} {lrest : List Order} (hInv : EngineInv e)
    (ha : a < MAX_PRICE_TICKS) (hl : e.bids a = resting :: lrest)
    (hfull : resting.qty ≤ inbound.qty) :
    let r := executeTrade e inbound resting a true
    r.1 = { inbound with qty := inbound.qty - resting.qty } ∧
    r.2.bids = Function.update e.bids a lrest ∧
    r.2.asks = e.asks ∧
    r.2.ask_tracker = e.ask_tracker ∧
    r.2.bid_tracker = (if lrest = [] then e.bid_tracker.clearPriceLevel a
                       else e.bid_tracker) ∧
    r.2.trades = e.trades ++ [{ inbound_id := inbound.id,
                                resting_id := resting.id,
                                price := a, qty := resting.qty }] ∧
    r.2.trades_executed = e.trades_executed + 1 ∧
    r.2.free_idx = e.free_idx + 1 ∧
    EngineInv r.2 := by
  intro r
  have hmin : min inbound.qty resting.qty = resting.qty := Nat.min_eq_right hfull
  have hO : r.1 = { inbound with qty := inbound.qty - resting.qty } := by
    show (executeTrade e inbound resting a true).1 = _
    simp [executeTrade, hmin]
  have hE : r.2 =
      { bids := Function.update e.bids a lrest,
        asks := e.asks,
        bid_tracker := (if lrest = [] then e.bid_tracker.clearPriceLevel a
                        else e.bid_tracker),
        ask_tracker := e.ask_tracker,
        free_idx := e.free_idx + 1,
        free_list := Function.update e.free_list e.free_idx resting.slot,
        trades_executed := e.trades_executed + 1,
        trades := e.trades ++ [{ inbound_id := inbound.id,
                                 resting_id := resting.id,
                                 price := a, qty := resting.qty }] } := by
    show (executeTrade e inbound resting a true).2 = _
    by_cases hrest : lrest = []
    · simp [executeTrade, deallocateOrder, hmin, hl, hrest]
    · simp [executeTrade, deallocateOrder, hmin, hl, hrest]
  refine ⟨hO, by rw [hE], by rw [hE], by rw [hE], by rw [hE], by rw [hE],
    by rw [hE], by rw [hE], ?_⟩
  have hmem : ∀ o ∈ lrest, o ∈ e.bids a := by
    intro o ho
    rw [hl]
    exact List.mem_cons_of_mem resting ho
  rw [hE]
  constructor
  · split
    · exact WF_clearPriceLevel hInv.bidWF ha
    · exact hInv.bidWF
  · exact hInv.askWF
  · intro p hp
    dsimp only
    by_cases hpa : p = a
    · subst hpa
      rw [Function.update_same]
      split
      · rename_i hrest
        rw [activeAt_clearPriceLevel _ hp hp]
        simp [hrest]
      · rename_i hrest
        have hact : e.bid_tracker.activeAt p = true := by
          apply (hInv.bidMatch p hp).mpr
          rw [hl]
          exact List.cons_ne_nil _ _
        rw [hact]
        simp [hrest]
    · rw [Function.update_noteq hpa]
      split
      · rw [activeAt_clearPriceLevel _ ha hp]
        have hb : (p == a) = false := by simp [hpa]
        rw [hb]
        simp only [Bool.not_false, Bool.and_true]
        exact hInv.bidMatch p hp
      · exact hInv.bidMatch p hp
  · exact hInv.askMatch
  · intro p hp
    dsimp only
    have hpa : p ≠ a := by omega
    rw [Function.update_noteq hpa]
    exact hInv.hiEmpty p hp
  · intro p o ho
    dsimp only at ho
    by_cases hpa : p = a
    · subst hpa
      rw [Function.update_same] at ho
      exact hInv.bidPos _ o (hmem o ho)
    · rw [Function.update_noteq hpa] at ho
      exact hInv.bidPos _ o ho
  · exact hInv.askPos

theorem executeTrade_bid_partial {e : EngineState} {inbound resting : Order}
    {a : Nat} {lrest : List Order} (hInv : EngineInv e)
    (ha : a < MAX_PRICE_TICKS) (hl : e.bids a = resting :: lrest)
    (hpart : inbound.qty < resting.qty) :
    let r := executeTrade e inbound resting a true
    r.1 = { inbound with qty := 0 } ∧
    r.2.bids = Function.update e.bids a
      ({ resting with qty := resting.qty - inbound.qty } :: lrest) ∧
    r.2.asks = e.asks ∧
    r.2.ask_tracker = e.ask_tracker ∧
    r.2.bid_tracker = e.bid_tracker ∧
    r.2.trades = e.trades ++ [{ inbound_id := inbound.id,
                                resting_id := resting.id,
                                price := a, qty := inbound.qty }] ∧
    r.2.trades_executed = e.trades_executed + 1 ∧
    r.2.free_idx = e.free_idx ∧
    EngineInv r.2 := by
  intro r
  have hmin : min inbound.qty resting.qty = inbound.qty :=
    Nat.min_eq_left (Nat.le_of_lt hpart)
  have hcond : ¬ (resting.qty - inbound.qty = 0) := by omega
  have hO : r.1 = { inbound with qty := 0 } := by
    show (executeTrade e inbound resting a true).1 = _
    simp [executeTrade, hmin, hcond]
  have hE : r.2 =
      { bids := Function.update e.bids a
          ({ resting with qty := resting.qty - inbound.qty } :: lrest),
        asks := e.asks,
        bid_tracker := e.bid_tracker,
        ask_tracker := e.ask_tracker,
        free_idx := e.free_idx,
        free_list := e.free_list,
        trades_executed := e.trades_executed + 1,
        trades := e.trades ++ [{ inbound_id := inbound.id,
                                 resting_id := resting.id,
                                 price := a, qty := inbound.qty }] } := by
    show (executeTrade e inbound resting a true).2 = _
    simp [executeTrade, hmin, hl, hcond]
  refine ⟨hO, by rw [hE], by rw [hE], by rw [hE], by rw [hE], by rw [hE],
    by rw [hE], by rw [hE], ?_⟩
  rw [hE]
  constructor
  · exact hInv.bidWF
  · exact hInv.askWF
  · intro p hp
    dsimp only
    by_cases hpa : p = a
    · subst hpa
      rw [Function.update_same]
      have hact : e.bid_tracker.activeAt p = true := by
        apply (hInv.bidMatch p hp).mpr
        rw [hl]
        exact List.cons_ne_nil _ _
      rw [hact]
      simp
    · rw [Function.update_noteq hpa]
      exact hInv.bidMatch p hp
  · exact hInv.askMatch
  · intro p hp
    dsimp only
    have hpa : p ≠ a := by omega
    rw [Function.update_noteq hpa]
    exact hInv.hiEmpty p hp
  · intro p o ho
    dsimp only at ho
    by_cases hpa : p = a
    · subst hpa
      rw [Function.update_same] at ho
      rcases List.mem_cons.mp ho with hh | ht
      · subst hh
        simp
        omega
      · apply hInv.bidPos p o
        rw [hl]
        exact List.mem_cons_of_mem resting ht
    · rw [Function.update_noteq hpa] at ho
      exact hInv.bidPos _ o ho
  · exact hInv.askPos

-- ### small arithmetic and list facts about the book

theorem fillSum_append (xs ys : List TradeEvent) :
    fillSum (xs ++ ys) = fillSum xs + fillSum ys := by
  simp [fillSum]

theorem levelQty_cons (o : Order) (l : List Order) :
    levelQty (o :: l) = o.qty + levelQty l := by
  simp [levelQty]

theorem length_le_sideCount {a : Nat} (ha : a < MAX_PRICE_TICKS)
    (f : Nat → List Order) : (f a).length ≤ sideCount f := by
  unfold sideCount
  exact @Finset.single_le_sum Nat Nat _ (fun p => (f p).length)
    (Finset.range MAX_PRICE_TICKS) (fun _ _ => Nat.zero_le _) a
    (Finset.mem_range.mpr ha)

theorem getBestAsk_le {t : FastPriceTracker} (hwf : t.WF) :
    t.getBestAsk ≤ MAX_PRICE_TICKS := by
  by_cases h : t.summary_word = 0
  · rw [FastPriceTracker.getBestAsk, if_pos h]
  · exact Nat.le_of_lt (getBestAsk_spec hwf h).1

theorem getBestAsk_mono {e e' : EngineState} (hInv : EngineInv e)
    (hInv' : EngineInv e') (hsub : ∀ p, e'.asks p ≠ [] → e.asks p ≠ []) :
    e.ask_tracker.getBestAsk ≤ e'.ask_tracker.getBestAsk := by
  by_cases h' : e'.ask_tracker.summary_word = 0
  · have h4096 : e'.ask_tracker.getBestAsk = MAX_PRICE_TICKS := by
      rw [FastPriceTracker.getBestAsk, if_pos h']
    rw [h4096]
    exact getBestAsk_le hInv.askWF
  · obtain ⟨hb'lt, hb'ne, -⟩ := asks_getBestAsk hInv' h'
    have hne : e.asks e'.ask_tracker.getBestAsk ≠ [] := hsub _ hb'ne
    have h : e.ask_tracker.summary_word ≠ 0 := by
      intro h0
      exact hne (asks_empty_of_summary_zero hInv h0 _)
    obtain ⟨-, -, hmin⟩ := asks_getBestAsk hInv h
    by_contra hlt
    push_neg at hlt
    exact hne (hmin _ hlt)

theorem getBestBid_mono {e e' : EngineState} (hInv : EngineInv e)
    (hInv' : EngineInv e') (hsub : ∀ p, e'.bids p ≠ [] → e.bids p ≠ []) :
    e'.bid_tracker.getBestBid ≤ e.bid_tracker.getBestBid := by
  by_cases h' : e'.bid_tracker.summary_word = 0
  · have h0 : e'.bid_tracker.getBestBid = 0 := by
      rw [FastPriceTracker.getBestBid, if_pos h']
    rw [h0]
    exact Nat.zero_le _
  · obtain ⟨hb'lt, hb'ne, -⟩ := bids_getBestBid hInv' h'
    have hne : e.bids e'.bid_tracker.getBestBid ≠ [] := hsub _ hb'ne
    have h : e.bid_tracker.summary_word ≠ 0 := by
      intro h0
      exact hne (bids_empty_of_summary_zero hInv h0 _)
    exact (bids_getBestBid hInv h).2.2 _ hne

theorem ne_nil_of_map_suffix {l₁ l₂ : List Order}
    (h : l₁.map Order.id <:+ l₂.map Order.id) (hne : l₁ ≠ []) : l₂ ≠ [] := by
  intro h2
  subst h2
  simp only [List.map_nil, List.suffix_nil, List.map_eq_nil_iff] at h
  exact hne h

-- ### the buy-side matching loop

theorem matchBuyLoop_spec (fuel : Nat) :
    ∀ (inbound : Order) (e : EngineState), EngineInv e →
      sideCount e.asks + 1 ≤ fuel →
      ∃ T, BuyLoopOut inbound e T (matchBuyLoop fuel inbound e) := by
  induction fuel with
  | zero =>
    intro inbound e hInv hfuel
    omega
  | succ fuel ih =>
    intro inbound e hInv hfuel
    by_cases hq : inbound.qty = 0
    · have hr : matchBuyLoop (fuel + 1) inbound e = (inbound, e, true) := by
        simp [matchBuyLoop, hq]
      rw [hr]
      exact ⟨[], ⟨rfl, hInv, rfl, rfl, rfl, rfl, rfl, rfl, Nat.le_refl _,
        fun _ => List.suffix_refl _, fun h => by simp [hq] at h,
        (List.append_nil _).symm, by simp, rfl, Nat.le_refl _,
        List.chain'_nil, by simp, fun _ => by simp⟩⟩
    · by_cases hbr : e.ask_tracker.getBestAsk > inbound.price ∨
          e.ask_tracker.getBestAsk = MAX_PRICE_TICKS
      · have hr : matchBuyLoop (fuel + 1) inbound e = (inbound, e, true) := by
          simp only [matchBuyLoop]
          rw [if_neg hq, if_pos hbr]
        rw [hr]
        exact ⟨[], ⟨rfl, hInv, rfl, rfl, rfl, rfl, rfl, rfl, Nat.le_refl _,
          fun _ => List.suffix_refl _, fun _ => hbr,
          (List.append_nil _).symm, by simp, rfl, Nat.le_refl _,
          List.chain'_nil, by simp, fun _ => by simp⟩⟩
      · push_neg at hbr
        obtain ⟨hle, hne4096⟩ := hbr
        have hlt4096 : e.ask_tracker.getBestAsk < MAX_PRICE_TICKS :=
          Nat.lt_of_le_of_ne (getBestAsk_le hInv.askWF) hne4096
        have hsum : e.ask_tracker.summary_word ≠ 0 :=
          (getBestAsk_lt_iff hInv.askWF).mp hlt4096
        obtain ⟨-, hlvne, -⟩ := asks_getBestAsk hInv hsum
        cases hl : e.asks e.ask_tracker.getBestAsk with
        | nil => exact absurd hl hlvne
        | cons resting lrest =>
          have hbr' : ¬ (e.ask_tracker.getBestAsk > inbound.price ∨
              e.ask_tracker.getBestAsk = MAX_PRICE_TICKS) := by
            push_neg
            exact ⟨hle, hne4096⟩
          have hunf : matchBuyLoop (fuel + 1) inbound e
              = matchBuyLoop fuel
                  (executeTrade e inbound resting e.ask_tracker.getBestAsk false).1
                  (executeTrade e inbound resting e.ask_tracker.getBestAsk false).2 := by
            simp only [matchBuyLoop]
            rw [if_neg hq, if_neg hbr', hl]
          have hlen1 : 1 ≤ (e.asks e.ask_tracker.getBestAsk).length := by
            rw [hl]
            simp
          have hlenS : (e.asks e.ask_tracker.getBestAsk).length
              ≤ sideCount e.asks := length_le_sideCount hlt4096 e.asks
          by_cases hfull : resting.qty ≤ inbound.qty
          · obtain ⟨hO, hasks, hbids, hbidtr, hasktr, htrades, hcount, hfree,
              hInv1⟩ := executeTrade_ask_full hInv hlt4096 hl hfull
            have hlenlv : (e.asks e.ask_tracker.getBestAsk).length
                = lrest.length + 1 := by
              rw [hl]
              simp
            have hcounts : sideCount
                (executeTrade e inbound resting e.ask_tracker.getBestAsk false).2.asks
                + 1 = sideCount e.asks := by
              rw [hasks]
              have h2 := sideCount_update hlt4096 e.asks lrest
              omega
            have hfuel1 : sideCount
                (executeTrade e inbound resting e.ask_tracker.getBestAsk false).2.asks
                + 1 ≤ fuel := by omega
            obtain ⟨T', IH⟩ := ih _ _ hInv1 hfuel1
            have hsub : ∀ p,
                (executeTrade e inbound resting e.ask_tracker.getBestAsk false).2.asks p ≠ []
                → e.asks p ≠ [] := by
              intro p hp
              by_cases hpb : p = e.ask_tracker.getBestAsk
              · subst hpb
                rw [hl]
                exact List.cons_ne_nil _ _
              · rw [hasks, Function.update_noteq hpb] at hp
                exact hp
            have hmono : e.ask_tracker.getBestAsk
                ≤ (executeTrade e inbound resting e.ask_tracker.getBestAsk false).2.ask_tracker.getBestAsk :=
              getBestAsk_mono hInv hInv1 hsub
            have hid : (executeTrade e inbound resting e.ask_tracker.getBestAsk false).1.id
                = inbound.id := by rw [hO]
            have hpr : (executeTrade e inbound resting e.ask_tracker.getBestAsk false).1.price
                = inbound.price := by rw [hO]
            have hbuy : (executeTrade e inbound resting e.ask_tracker.getBestAsk false).1.is_buy
                = inbound.is_buy := by rw [hO]
            have hslot : (executeTrade e inbound resting e.ask_tracker.getBestAsk false).1.slot
                = inbound.slot := by rw [hO]
            have hq1 : (executeTrade e inbound resting e.ask_tracker.getBestAsk false).1.qty
                = inbound.qty - resting.qty := by rw [hO]
            have hsq : sideQty
                (executeTrade e inbound resting e.ask_tracker.getBestAsk false).2.asks
                + resting.qty = sideQty e.asks := by
              rw [hasks]
              have h2 := sideQty_update hlt4096 e.asks lrest
              rw [hl, levelQty_cons] at h2
              omega
            have hfs : fillSum
                (executeTrade e inbound resting e.ask_tracker.getBestAsk false).2.trades
                = fillSum e.trades + resting.qty := by
              rw [htrades, fillSum_append]
              simp [fillSum]
            rw [hunf]
            refine ⟨⟨inbound.id, resting.id, e.ask_tracker.getBestAsk,
              resting.qty⟩ :: T', ?_⟩
            constructor
            · exact IH.flag
            · exact IH.inv
            · rw [IH.bids_eq, hbids]
            · rw [IH.bidTracker_eq, hbidtr]
            · rw [IH.id_eq, hid]
            · rw [IH.price_eq, hpr]
            · rw [IH.buy_eq, hbuy]
            · rw [IH.slot_eq, hslot]
            · have h1 := IH.qty_le
              omega
            · intro p
              apply (IH.suffix_ids p).trans
              by_cases hpb : p = e.ask_tracker.getBestAsk
              · subst hpb
                rw [hasks, Function.update_same, hl, List.map_cons]
                exact List.suffix_cons _ _
              · rw [hasks, Function.update_noteq hpb]
            · intro h
              have hb := IH.break_cond h
              rwa [hpr] at hb
            · rw [IH.trades_eq, htrades, List.append_assoc,
                List.singleton_append]
            · rw [IH.count_eq, hcount, List.length_cons]
              omega
            · have hc := IH.conserve
              omega
            · have h1 := IH.free_le
              omega
            · apply List.chain'_cons'.mpr
              refine ⟨?_, IH.chain⟩
              intro y hy
              have hyT : y ∈ T' := List.mem_of_mem_head? hy
              have hb := (IH.bounds y hyT).1
              exact le_trans hmono hb
            · intro t ht
              rcases List.mem_cons.mp ht with hev | hT'
              · subst hev
                exact ⟨Nat.le_refl _, hle, hlt4096, rfl⟩
              · obtain ⟨h1, h2, h3, h4⟩ := IH.bounds t hT'
                refine ⟨le_trans hmono h1, ?_, h3, ?_⟩
                · rw [hpr] at h2
                  exact h2
                · rw [hid] at h4
                  exact h4
            · intro a
              by_cases hab : a = e.ask_tracker.getBestAsk
              · rw [hab, hl]
                have hbq : ((⟨inbound.id, resting.id,
                    e.ask_tracker.getBestAsk, resting.qty⟩ : TradeEvent).price
                      == e.ask_tracker.getBestAsk) = true := by simp
                rw [List.filter_cons, if_pos hbq, List.map_cons, List.map_cons]
                apply List.cons_prefix_cons.mpr
                refine ⟨rfl, ?_⟩
                have hIHf := IH.fifo e.ask_tracker.getBestAsk
                rwa [hasks, Function.update_same] at hIHf
              · have hbq : ((⟨inbound.id, resting.id,
                    e.ask_tracker.getBestAsk, resting.qty⟩ : TradeEvent).price
                      == a) = false := by
                  simp
                  omega
                rw [List.filter_cons, if_neg (by rw [hbq]; exact Bool.false_ne_true)]
                have hIHf := IH.fifo a
                rwa [hasks, Function.update_noteq hab] at hIHf
          · have hpart : inbound.qty < resting.qty := by omega
            obtain ⟨hO, hasks, hbids, hbidtr, hasktr, htrades, hcount, hfree,
              hInv1⟩ := executeTrade_ask_partial hInv hlt4096 hl hpart
            have hq0 : (executeTrade e inbound resting e.ask_tracker.getBestAsk false).1.qty
                = 0 := by rw [hO]
            have hfge : 1 ≤ fuel := by omega
            obtain ⟨f, rfl⟩ : ∃ f, fuel = f + 1 :=
              ⟨fuel - 1, by omega⟩
            have hstep : matchBuyLoop (f + 1)
                (executeTrade e inbound resting e.ask_tracker.getBestAsk false).1
                (executeTrade e inbound resting e.ask_tracker.getBestAsk false).2
                = ((executeTrade e inbound resting e.ask_tracker.getBestAsk false).1,
                   (executeTrade e inbound resting e.ask_tracker.getBestAsk false).2,
                   true) := by
              simp [matchBuyLoop, hq0]
            rw [hunf, hstep]
            have hsq : sideQty
                (executeTrade e inbound resting e.ask_tracker.getBestAsk false).2.asks
                + inbound.qty = sideQty e.asks := by
              rw [hasks]
              have h2 := sideQty_update hlt4096 e.asks
                ({ resting with qty := resting.qty - inbound.qty } :: lrest)
              rw [hl, levelQty_cons, levelQty_cons] at h2
              have h3 : ({ resting with qty := resting.qty - inbound.qty } : Order).qty
                  = resting.qty - inbound.qty := rfl
              rw [h3] at h2
              omega
            have hfs : fillSum
                (executeTrade e inbound resting e.ask_tracker.getBestAsk false).2.trades
                = fillSum e.trades + inbound.qty := by
              rw [htrades, fillSum_append]
              simp [fillSum]
            refine ⟨[⟨inbound.id, resting.id, e.ask_tracker.getBestAsk,
              inbound.qty⟩], ?_⟩
            constructor
            · rfl
            · exact hInv1
            · exact hbids
            · exact hbidtr
            · rw [hO]
            · rw [hO]
            · rw [hO]
            · rw [hO]
            · rw [hq0]
              exact Nat.zero_le _
            · intro p
              by_cases hpb : p = e.ask_tracker.getBestAsk
              · subst hpb
                rw [hasks, Function.update_same, hl, List.map_cons,
                  List.map_cons]
              · rw [hasks, Function.update_noteq hpb]
            · intro h
              rw [hq0] at h
              exact absurd h (by omega)
            · exact htrades
            · rw [hcount]
              simp
            · dsimp only
              rw [hq0, hfs]
              omega
            · rw [hfree]
            · exact List.chain'_singleton _
            · intro t ht
              rcases List.mem_singleton.mp ht with rfl
              exact ⟨Nat.le_refl _, hle, hlt4096, rfl⟩
            · intro a
              by_cases hab : a = e.ask_tracker.getBestAsk
              · rw [hab, hl]
                have hbq : ((⟨inbound.id, resting.id,
                    e.ask_tracker.getBestAsk, inbound.qty⟩ : TradeEvent).price
                      == e.ask_tracker.getBestAsk) = true := by simp
                rw [List.filter_cons, if_pos hbq, List.filter_nil,
                  List.map_cons, List.map_cons]
                apply List.cons_prefix_cons.mpr
                exact ⟨rfl, by simp⟩
              · have hbq : ((⟨inbound.id, resting.id,
                    e.ask_tracker.getBestAsk, inbound.qty⟩ : TradeEvent).price
                      == a) = false := by
                  simp
                  omega
                rw [List.filter_cons, if_neg (by rw [hbq]; exact Bool.false_ne_true)]
                simp

-- ### the sell-side matching loop

theorem matchSellLoop_spec (fuel : Nat) :
    ∀ (inbound : Order) (e : EngineState), EngineInv e →
      sideCount e.bids + 1 ≤ fuel →
      ∃ T, SellLoopOut inbound e T (matchSellLoop fuel inbound e) := by
  induction fuel with
  | zero =>
    intro inbound e hInv hfuel
    omega
  | succ fuel ih =>
    intro inbound e hInv hfuel
    by_cases hq : inbound.qty = 0
    · have hr : matchSellLoop (fuel + 1) inbound e = (inbound, e, true) := by
        simp [matchSellLoop, hq]
      rw [hr]
      exact ⟨[], ⟨rfl, hInv, rfl, rfl, rfl, rfl, rfl, rfl, Nat.le_refl _,
        fun _ => List.suffix_refl _, rfl, fun h => by simp [hq] at h,
        (List.append_nil _).symm, by simp, rfl, Nat.le_refl _,
        List.chain'_nil, by simp, fun _ => by simp⟩⟩
    · by_cases hbr : e.bid_tracker.getBestBid < inbound.price ∨
          e.bid_tracker.getBestBid = 0
      · have hr : matchSellLoop (fuel + 1) inbound e = (inbound, e, true) := by
          simp only [matchSellLoop]
          rw [if_neg hq, if_pos hbr]
        rw [hr]
        exact ⟨[], ⟨rfl, hInv, rfl, rfl, rfl, rfl, rfl, rfl, Nat.le_refl _,
          fun _ => List.suffix_refl _, rfl, fun _ => hbr,
          (List.append_nil _).symm, by simp, rfl, Nat.le_refl _,
          List.chain'_nil, by simp, fun _ => by simp⟩⟩
      · push_neg at hbr
        obtain ⟨hge, hne0⟩ := hbr
        have hsum : e.bid_tracker.summary_word ≠ 0 := by
          intro h0
          apply hne0
          rw [FastPriceTracker.getBestBid, if_pos h0]
        obtain ⟨hlt4096, hlvne, hmax⟩ := bids_getBestBid hInv hsum
        cases hl : e.bids e.bid_tracker.getBestBid with
        | nil => exact absurd hl hlvne
        | cons resting lrest =>
          have hbr' : ¬ (e.bid_tracker.getBestBid < inbound.price ∨
              e.bid_tracker.getBestBid = 0) := by
            push_neg
            exact ⟨hge, hne0⟩
          have hunf : matchSellLoop (fuel + 1) inbound e
              = matchSellLoop fuel
                  (executeTrade e inbound resting e.bid_tracker.getBestBid true).1
                  (executeTrade e inbound resting e.bid_tracker.getBestBid true).2 := by
            simp only [matchSellLoop]
            rw [if_neg hq, if_neg hbr', hl]
          have hlen1 : 1 ≤ (e.bids e.bid_tracker.getBestBid).length := by
            rw [hl]
            simp
          have hlenS : (e.bids e.bid_tracker.getBestBid).length
              ≤ sideCount e.bids := length_le_sideCount hlt4096 e.bids
          by_cases hfull : resting.qty ≤ inbound.qty
          · obtain ⟨hO, hbids, hasks, hasktr, hbidtr, htrades, hcount, hfree,
              hInv1⟩ := executeTrade_bid_full hInv hlt4096 hl hfull
            have hlenlv : (e.bids e.bid_tracker.getBestBid).length
                = lrest.length + 1 := by
              rw [hl]
              simp
            have hcounts : sideCount
                (executeTrade e inbound resting e.bid_tracker.getBestBid true).2.bids
                + 1 = sideCount e.bids := by
              rw [hbids]
              have h2 := sideCount_update hlt4096 e.bids lrest
              omega
            have hfuel1 : sideCount
                (executeTrade e inbound resting e.bid_tracker.getBestBid true).2.bids
                + 1 ≤ fuel := by omega
            obtain ⟨T', IH⟩ := ih _ _ hInv1 hfuel1
            have hsub : ∀ p,
                (executeTrade e inbound resting e.bid_tracker.getBestBid true).2.bids p ≠ []
                → e.bids p ≠ [] := by
              intro p hp
              by_cases hpb : p = e.bid_tracker.getBestBid
              · subst hpb
                rw [hl]
                exact List.cons_ne_nil _ _
              · rw [hbids, Function.update_noteq hpb] at hp
                exact hp
            have hmono : (executeTrade e inbound resting e.bid_tracker.getBestBid true).2.bid_tracker.getBestBid
                ≤ e.bid_tracker.getBestBid :=
              getBestBid_mono hInv hInv1 hsub
            have hid : (executeTrade e inbound resting e.bid_tracker.getBestBid true).1.id
                = inbound.id := by rw [hO]
            have hpr : (executeTrade e inbound resting e.bid_tracker.getBestBid true).1.price
                = inbound.price := by rw [hO]
            have hbuy : (executeTrade e inbound resting e.bid_tracker.getBestBid true).1.is_buy
                = inbound.is_buy := by rw [hO]
            have hslot : (executeTrade e inbound resting e.bid_tracker.getBestBid true).1.slot
                = inbound.slot := by rw [hO]
            have hq1 : (executeTrade e inbound resting e.bid_tracker.getBestBid true).1.qty
                = inbound.qty - resting.qty := by rw [hO]
            have hsq : sideQty
                (executeTrade e inbound resting e.bid_tracker.getBestBid true).2.bids
                + resting.qty = sideQty e.bids := by
              rw [hbids]
              have h2 := sideQty_update hlt4096 e.bids lrest
              rw [hl, levelQty_cons] at h2
              omega
            have hfs : fillSum
                (executeTrade e inbound resting e.bid_tracker.getBestBid true).2.trades
                = fillSum e.trades + resting.qty := by
              rw [htrades, fillSum_append]
              simp [fillSum]
            have h0b : (0 : Nat) ≠ e.bid_tracker.getBestBid := by omega
            rw [hunf]
            refine ⟨⟨inbound.id, resting.id, e.bid_tracker.getBestBid,
              resting.qty⟩ :: T', ?_⟩
            constructor
            · exact IH.flag
            · exact IH.inv
            · rw [IH.asks_eq, hasks]
            · rw [IH.askTracker_eq, hasktr]
            · rw [IH.id_eq, hid]
            · rw [IH.price_eq, hpr]
            · rw [IH.buy_eq, hbuy]
            · rw [IH.slot_eq, hslot]
            · have h1 := IH.qty_le
              omega
            · intro p
              apply (IH.suffix_ids p).trans
              by_cases hpb : p = e.bid_tracker.getBestBid
              · subst hpb
                rw [hbids, Function.update_same, hl, List.map_cons]
                exact List.suffix_cons _ _
              · rw [hbids, Function.update_noteq hpb]
            · rw [IH.bids0_eq, hbids, Function.update_noteq h0b]
            · intro h
              have hb := IH.break_cond h
              rwa [hpr] at hb
            · rw [IH.trades_eq, htrades, List.append_assoc,
                List.singleton_append]
            · rw [IH.count_eq, hcount, List.length_cons]
              omega
            · have hc := IH.conserve
              omega
            · have h1 := IH.free_le
              omega
            · apply List.chain'_cons'.mpr
              refine ⟨?_, IH.chain⟩
              intro y hy
              have hyT : y ∈ T' := List.mem_of_mem_head? hy
              have hb := (IH.bounds y hyT).1
              exact le_trans hb hmono
            · intro t ht
              rcases List.mem_cons.mp ht with hev | hT'
              · subst hev
                exact ⟨Nat.le_refl _, hge, by dsimp only; omega, hlt4096, rfl⟩
              · obtain ⟨h1, h2, h3, h4, h5⟩ := IH.bounds t hT'
                refine ⟨le_trans h1 hmono, ?_, h3, h4, ?_⟩
                · rw [hpr] at h2
                  exact h2
                · rw [hid] at h5
                  exact h5
            · intro a
              by_cases hab : a = e.bid_tracker.getBestBid
              · rw [hab, hl]
                have hbq : ((⟨inbound.id, resting.id,
                    e.bid_tracker.getBestBid, resting.qty⟩ : TradeEvent).price
                      == e.bid_tracker.getBestBid) = true := by simp
                rw [List.filter_cons, if_pos hbq, List.map_cons, List.map_cons]
                apply List.cons_prefix_cons.mpr
                refine ⟨rfl, ?_⟩
                have hIHf := IH.fifo e.bid_tracker.getBestBid
                rwa [hbids, Function.update_same] at hIHf
              · have hbq : ((⟨inbound.id, resting.id,
                    e.bid_tracker.getBestBid, resting.qty⟩ : TradeEvent).price
                      == a) = false := by
                  simp
                  omega
                rw [List.filter_cons, if_neg (by rw [hbq]; exact Bool.false_ne_true)]
                have hIHf := IH.fifo a
                rwa [hbids, Function.update_noteq hab] at hIHf
          · have hpart : inbound.qty < resting.qty := by omega
            obtain ⟨hO, hbids, hasks, hasktr, hbidtr, htrades, hcount, hfree,
              hInv1⟩ := executeTrade_bid_partial hInv hlt4096 hl hpart
            have hq0 : (executeTrade e inbound resting e.bid_tracker.getBestBid true).1.qty
                = 0 := by rw [hO]
            have hfge : 1 ≤ fuel := by omega
            obtain ⟨f, rfl⟩ : ∃ f, fuel = f + 1 :=
              ⟨fuel - 1, by omega⟩
            have hstep : matchSellLoop (f + 1)
                (executeTrade e inbound resting e.bid_tracker.getBestBid true).1
                (executeTrade e inbound resting e.bid_tracker.getBestBid true).2
                = ((executeTrade e inbound resting e.bid_tracker.getBestBid true).1,
                   (executeTrade e inbound resting e.bid_tracker.getBestBid true).2,
                   true) := by
              simp [matchSellLoop, hq0]
            rw [hunf, hstep]
            have hsq : sideQty
                (executeTrade e inbound resting e.bid_tracker.getBestBid true).2.bids
                + inbound.qty = sideQty e.bids := by
              rw [hbids]
              have h2 := sideQty_update hlt4096 e.bids
                ({ resting with qty := resting.qty - inbound.qty } :: lrest)
              rw [hl, levelQty_cons, levelQty_cons] at h2
              have h3 : ({ resting with qty := resting.qty - inbound.qty } : Order).qty
                  = resting.qty - inbound.qty := rfl
              rw [h3] at h2
              omega
            have hfs : fillSum
                (executeTrade e inbound resting e.bid_tracker.getBestBid true).2.trades
                = fillSum e.trades + inbound.qty := by
              rw [htrades, fillSum_append]
              simp [fillSum]
            have h0b : (0 : Nat) ≠ e.bid_tracker.getBestBid := by omega
            refine ⟨[⟨inbound.id, resting.id, e.bid_tracker.getBestBid,
              inbound.qty⟩], ?_⟩
            constructor
            · rfl
            · exact hInv1
            · exact hasks
            · exact hasktr
            · rw [hO]
            · rw [hO]
            · rw [hO]
            · rw [hO]
            · rw [hq0]
              exact Nat.zero_le _
            · intro p
              by_cases hpb : p = e.bid_tracker.getBestBid
              · subst hpb
                rw [hbids, Function.update_same, hl, List.map_cons,
                  List.map_cons]
              · rw [hbids, Function.update_noteq hpb]
            · rw [hbids, Function.update_noteq h0b]
            · intro h
              rw [hq0] at h
              exact absurd h (by omega)
            · exact htrades
            · rw [hcount]
              simp
            · dsimp only
              rw [hq0, hfs]
              omega
            · rw [hfree]
            · exact List.chain'_singleton _
            · intro t ht
              rcases List.mem_singleton.mp ht with rfl
              exact ⟨Nat.le_refl _, hge, by dsimp only; omega, hlt4096, rfl⟩
            · intro a
              by_cases hab : a = e.bid_tracker.getBestBid
              · rw [hab, hl]
                have hbq : ((⟨inbound.id, resting.id,
                    e.bid_tracker.getBestBid, inbound.qty⟩ : TradeEvent).price
                      == e.bid_tracker.getBestBid) = true := by simp
                rw [List.filter_cons, if_pos hbq, List.filter_nil,
                  List.map_cons, List.map_cons]
                apply List.cons_prefix_cons.mpr
                exact ⟨rfl, by simp⟩
              · have hbq : ((⟨inbound.id, resting.id,
                    e.bid_tracker.getBestBid, inbound.qty⟩ : TradeEvent).price
                      == a) = false := by
                  simp
                  omega
                rw [List.filter_cons, if_neg (by rw [hbq]; exact Bool.false_ne_true)]
                simp

-- ### resting the remainder

theorem levelQty_append (l : List Order) (o : Order) :
    levelQty (l ++ [o]) = levelQty l + o.qty := by
  simp [levelQty]

theorem bookAddOrder_spec {e : EngineState} {o : Order} (hInv : EngineInv e)
    (hp : o.price < MAX_PRICE_TICKS) (hq : 0 < o.qty) :
    let e' := bookAddOrder e o
    (o.is_buy = true →
       e'.bids = Function.update e.bids o.price (e.bids o.price ++ [o]) ∧
       e'.asks = e.asks ∧ e'.ask_tracker = e.ask_tracker) ∧
    (o.is_buy = false →
       e'.asks = Function.update e.asks o.price (e.asks o.price ++ [o]) ∧
       e'.bids = e.bids ∧ e'.bid_tracker = e.bid_tracker) ∧
    e'.trades = e.trades ∧ e'.trades_executed = e.trades_executed ∧
    e'.free_idx = e.free_idx ∧
    EngineInv e' := by
  intro e'
  cases hbuy : o.is_buy
  · have he' : e' = { e with
        asks := Function.update e.asks o.price (e.asks o.price ++ [o]),
        ask_tracker := (if e.asks o.price = []
          then e.ask_tracker.setPriceLevel o.price else e.ask_tracker) } := by
      show bookAddOrder e o = _
      by_cases hemp : e.asks o.price = []
      · simp [bookAddOrder, hbuy, hemp]
      · simp [bookAddOrder, hbuy, hemp]
    rw [he']
    refine ⟨fun h => Bool.noConfusion h, fun _ => ⟨rfl, rfl, rfl⟩, rfl, rfl,
      rfl, ?_⟩
    constructor
    · exact hInv.bidWF
    · dsimp only
      split
      · exact WF_setPriceLevel hInv.askWF hp
      · exact hInv.askWF
    · exact hInv.bidMatch
    · intro p hpp
      dsimp only
      by_cases hpa : p = o.price
      · subst hpa
        rw [Function.update_same]
        split
        · rw [activeAt_setPriceLevel _ hp hpp]
          simp
        · rename_i hemp
          have hact : e.ask_tracker.activeAt o.price = true :=
            (hInv.askMatch o.price hpp).mpr hemp
          rw [hact]
          simp
      · rw [Function.update_noteq hpa]
        split
        · rw [activeAt_setPriceLevel _ hp hpp]
          have hb : (p == o.price) = false := by simp [hpa]
          rw [hb, Bool.or_false]
          exact hInv.askMatch p hpp
        · exact hInv.askMatch p hpp
    · intro p hpp
      dsimp only
      have hpa : p ≠ o.price := by omega
      rw [Function.update_noteq hpa]
      exact hInv.hiEmpty p hpp
    · exact hInv.bidPos
    · intro p o' ho'
      dsimp only at ho'
      by_cases hpa : p = o.price
      · subst hpa
        rw [Function.update_same] at ho'
        rcases List.mem_append.mp ho' with hm | hm
        · exact hInv.askPos o.price o' hm
        · rcases List.mem_singleton.mp hm with rfl
          exact hq
      · rw [Function.update_noteq hpa] at ho'
        exact hInv.askPos p o' ho'
  · have he' : e' = { e with
        bids := Function.update e.bids o.price (e.bids o.price ++ [o]),
        bid_tracker := (if e.bids o.price = []
          then e.bid_tracker.setPriceLevel o.price else e.bid_tracker) } := by
      show bookAddOrder e o = _
      by_cases hemp : e.bids o.price = []
      · simp [bookAddOrder, hbuy, hemp]
      · simp [bookAddOrder, hbuy, hemp]
    rw [he']
    refine ⟨fun _ => ⟨rfl, rfl, rfl⟩, fun h => Bool.noConfusion h, rfl, rfl,
      rfl, ?_⟩
    constructor
    · dsimp only
      split
      · exact WF_setPriceLevel hInv.bidWF hp
      · exact hInv.bidWF
    · exact hInv.askWF
    · intro p hpp
      dsimp only
      by_cases hpa : p = o.price
      · subst hpa
        rw [Function.update_same]
        split
        · rw [activeAt_setPriceLevel _ hp hpp]
          simp
        · rename_i hemp
          have hact : e.bid_tracker.activeAt o.price = true :=
            (hInv.bidMatch o.price hpp).mpr hemp
          rw [hact]
          simp
      · rw [Function.update_noteq hpa]
        split
        · rw [activeAt_setPriceLevel _ hp hpp]
          have hb : (p == o.price) = false := by simp [hpa]
          rw [hb, Bool.or_false]
          exact hInv.bidMatch p hpp
        · exact hInv.bidMatch p hpp
    · exact hInv.askMatch
    · intro p hpp
      dsimp only
      have hpa : p ≠ o.price := by omega
      rw [Function.update_noteq hpa]
      exact hInv.hiEmpty p hpp
    · intro p o' ho'
      dsimp only at ho'
      by_cases hpa : p = o.price
      · subst hpa
        rw [Function.update_same] at ho'
        rcases List.mem_append.mp ho' with hm | hm
        · exact hInv.bidPos o.price o' hm
        · rcases List.mem_singleton.mp hm with rfl
          exact hq
      · rw [Function.update_noteq hpa] at ho'
        exact hInv.bidPos p o' ho'
    · exact hInv.askPos

-- ### one full call to processNewOrder

theorem processNewOrder_spec {e : EngineState} (id price qty : Nat)
    (is_buy : Bool) (hInv : EngineInv e) (hfree : 0 < e.free_idx)
    (hq : 0 < qty) (hp : price < MAX_PRICE_TICKS) :
    ∃ e' T, processNewOrder e id price qty is_buy = .ok (e', true) ∧
      EngineInv e' ∧
      e'.trades = e.trades ++ T ∧
      e'.trades_executed = e.trades_executed + T.length ∧
      qty + bookQty e + 2 * fillSum e.trades
        = bookQty e' + 2 * fillSum e'.trades ∧
      e.free_idx ≤ e'.free_idx + 1 ∧
      (∀ t ∈ T, t.inbound_id = id ∧ t.price < MAX_PRICE_TICKS) ∧
      (is_buy = true →
        List.Chain' (fun t₁ t₂ => t₁.price ≤ t₂.price) T ∧
        (∀ t ∈ T, t.price ≤ price) ∧
        (∀ a, ((T.filter (fun t => t.price == a)).map TradeEvent.resting_id)
          <+: (e.asks a).map Order.id) ∧
        (∀ p, (e'.asks p).map Order.id <:+ (e.asks p).map Order.id)) ∧
      (is_buy = false →
        List.Chain' (fun t₁ t₂ => t₂.price ≤ t₁.price) T ∧
        (∀ t ∈ T, price ≤ t.price) ∧
        (∀ a, ((T.filter (fun t => t.price == a)).map TradeEvent.resting_id)
          <+: (e.bids a).map Order.id) ∧
        (∀ p, (e'.bids p).map Order.id <:+ (e.bids p).map Order.id)) ∧
      (NoCross e → (is_buy = false → 1 ≤ price) → NoCross e') := by
  have halloc : allocateOrder e id price qty is_buy
      = .ok (⟨id, price, qty, is_buy, e.free_list (e.free_idx - 1)⟩,
             { e with free_idx := e.free_idx - 1 }) := by
    unfold allocateOrder
    rw [if_neg (by omega)]
  have hInv1 : EngineInv { e with free_idx := e.free_idx - 1 } :=
    ⟨hInv.bidWF, hInv.askWF, hInv.bidMatch, hInv.askMatch, hInv.hiEmpty,
     hInv.bidPos, hInv.askPos⟩
  cases is_buy
  · -- inbound sell
    have hfuel : sideCount ({ e with free_idx := e.free_idx - 1 } : EngineState).bids + 1
        ≤ matchFuel { e with free_idx := e.free_idx - 1 } := by
      unfold matchFuel bookOrderCount
      omega
    obtain ⟨T, L⟩ := matchSellLoop_spec
      (matchFuel { e with free_idx := e.free_idx - 1 })
      ⟨id, price, qty, false, e.free_list (e.free_idx - 1)⟩
      { e with free_idx := e.free_idx - 1 } hInv1 hfuel
    set R := matchSellLoop (matchFuel { e with free_idx := e.free_idx - 1 })
      ⟨id, price, qty, false, e.free_list (e.free_idx - 1)⟩
      { e with free_idx := e.free_idx - 1 } with hR
    have hPN : processNewOrder e id price qty false
        = (if 0 < R.1.qty then Except.ok (bookAddOrder R.2.1 R.1, R.2.2)
           else Except.ok (deallocateOrder R.2.1 R.1.slot, R.2.2)) := by
      unfold processNewOrder
      rw [halloc]
      rfl
    have hTprops : ∀ t ∈ T, t.inbound_id = id ∧ t.price < MAX_PRICE_TICKS := by
      intro t ht
      obtain ⟨-, -, -, h4, h5⟩ := L.bounds t ht
      exact ⟨h5, h4⟩
    have hA : sideQty R.2.1.asks = sideQty e.asks := by
      rw [L.asks_eq]
    have hfifo : ∀ a, ((T.filter (fun t => t.price == a)).map
        TradeEvent.resting_id) <+: (e.bids a).map Order.id := L.fifo
    have hTub : ∀ t ∈ T, price ≤ t.price := by
      intro t ht
      exact (L.bounds t ht).2.1
    by_cases hrest : 0 < R.1.qty
    · have hbuyR : R.1.is_buy = false := L.buy_eq
      have hprR : R.1.price = price := L.price_eq
      obtain ⟨hBT, hBF, hBtrades, hBcount, hBfree, hBInv⟩ :=
        bookAddOrder_spec L.inv (by rw [hprR]; exact hp) hrest
      obtain ⟨hBasks, hBbids, hBbidtr⟩ := hBF hbuyR
      refine ⟨bookAddOrder R.2.1 R.1, T, ?_, hBInv, ?_, ?_, ?_, ?_, hTprops,
        fun h => Bool.noConfusion h, fun _ => ⟨L.chain, hTub, hfifo, ?_⟩, ?_⟩
      · rw [hPN, if_pos hrest, L.flag]
      · rw [hBtrades, L.trades_eq]
      · rw [hBcount, L.count_eq]
      · have hc := L.conserve
        dsimp only at hc
        have hupd : sideQty (bookAddOrder R.2.1 R.1).asks
            = sideQty R.2.1.asks + R.1.qty := by
          rw [hBasks]
          have h2 := sideQty_update
            (show R.1.price < MAX_PRICE_TICKS by rw [hprR]; exact hp)
            R.2.1.asks (R.2.1.asks R.1.price ++ [R.1])
          rw [levelQty_append] at h2
          omega
        have hbb : sideQty (bookAddOrder R.2.1 R.1).bids
            = sideQty R.2.1.bids := by rw [hBbids]
        unfold bookQty
        rw [hBtrades, hupd, hbb, hA]
        omega
      · have h1 := L.free_le
        dsimp only at h1
        rw [hBfree]
        omega
      · intro p
        rw [hBbids]
        exact L.suffix_ids p
      · intro hNC hsp
        have hp1 : 1 ≤ price := hsp rfl
        intro pb pa hpb hpa
        rw [hBbids] at hpb
        have hpbE : e.bids pb ≠ [] :=
          ne_nil_of_map_suffix (L.suffix_ids pb) hpb
        by_cases hpap : pa = R.1.price
        · have hbrk := L.break_cond hrest
          dsimp only at hbrk
          have hRsum : R.2.1.bid_tracker.summary_word ≠ 0 := by
            intro h0
            exact hpb (bids_empty_of_summary_zero L.inv h0 pb)
          obtain ⟨-, -, hmax⟩ := bids_getBestBid L.inv hRsum
          have hpbmax : pb ≤ R.2.1.bid_tracker.getBestBid := hmax pb hpb
          rcases hbrk with hlt | h0 <;> omega
        · rw [hBasks, Function.update_noteq hpap] at hpa
          have hpaE : e.asks pa ≠ [] := by
            rw [L.asks_eq] at hpa
            exact hpa
          exact hNC pb pa hpbE hpaE
    · have hq0 : R.1.qty = 0 := by omega
      refine ⟨deallocateOrder R.2.1 R.1.slot, T, ?_, ?_, ?_, ?_, ?_, ?_,
        hTprops, fun h => Bool.noConfusion h,
        fun _ => ⟨L.chain, hTub, hfifo, ?_⟩, ?_⟩
      · rw [hPN, if_neg hrest, L.flag]
      · exact ⟨L.inv.bidWF, L.inv.askWF, L.inv.bidMatch, L.inv.askMatch,
          L.inv.hiEmpty, L.inv.bidPos, L.inv.askPos⟩
      · rw [show (deallocateOrder R.2.1 R.1.slot).trades = R.2.1.trades from rfl,
          L.trades_eq]
      · rw [show (deallocateOrder R.2.1 R.1.slot).trades_executed
            = R.2.1.trades_executed from rfl, L.count_eq]
      · have hc := L.conserve
        dsimp only at hc
        unfold bookQty
        rw [show (deallocateOrder R.2.1 R.1.slot).asks = R.2.1.asks from rfl,
          show (deallocateOrder R.2.1 R.1.slot).bids = R.2.1.bids from rfl,
          show (deallocateOrder R.2.1 R.1.slot).trades = R.2.1.trades from rfl,
          hA]
        omega
      · have h1 := L.free_le
        dsimp only at h1
        have h2 : (deallocateOrder R.2.1 R.1.slot).free_idx
            = R.2.1.free_idx + 1 := rfl
        omega
      · intro p
        exact L.suffix_ids p
      · intro hNC _
        intro pb pa hpb hpa
        have hpbE : e.bids pb ≠ [] :=
          ne_nil_of_map_suffix (L.suffix_ids pb) hpb
        have hpaE : e.asks pa ≠ [] := by
          rw [show (deallocateOrder R.2.1 R.1.slot).asks = R.2.1.asks from rfl,
            L.asks_eq] at hpa
          exact hpa
        exact hNC pb pa hpbE hpaE
  · -- inbound buy
    have hfuel : sideCount ({ e with free_idx := e.free_idx - 1 } : EngineState).asks + 1
        ≤ matchFuel { e with free_idx := e.free_idx - 1 } := by
      unfold matchFuel bookOrderCount
      omega
    obtain ⟨T, L⟩ := matchBuyLoop_spec
      (matchFuel { e with free_idx := e.free_idx - 1 })
      ⟨id, price, qty, true, e.free_list (e.free_idx - 1)⟩
      { e with free_idx := e.free_idx - 1 } hInv1 hfuel
    set R := matchBuyLoop (matchFuel { e with free_idx := e.free_idx - 1 })
      ⟨id, price, qty, true, e.free_list (e.free_idx - 1)⟩
      { e with free_idx := e.free_idx - 1 } with hR
    have hPN : processNewOrder e id price qty true
        = (if 0 < R.1.qty then Except.ok (bookAddOrder R.2.1 R.1, R.2.2)
           else Except.ok (deallocateOrder R.2.1 R.1.slot, R.2.2)) := by
      unfold processNewOrder
      rw [halloc]
      rfl
    have hTprops : ∀ t ∈ T, t.inbound_id = id ∧ t.price < MAX_PRICE_TICKS := by
      intro t ht
      obtain ⟨-, -, h3, h4⟩ := L.bounds t ht
      exact ⟨h4, h3⟩
    have hA : sideQty R.2.1.bids = sideQty e.bids := by
      rw [L.bids_eq]
    have hfifo : ∀ a, ((T.filter (fun t => t.price == a)).map
        TradeEvent.resting_id) <+: (e.asks a).map Order.id := L.fifo
    have hTub : ∀ t ∈ T, t.price ≤ price := by
      intro t ht
      exact (L.bounds t ht).2.1
    by_cases hrest : 0 < R.1.qty
    · have hbuyR : R.1.is_buy = true := L.buy_eq
      have hprR : R.1.price = price := L.price_eq
      obtain ⟨hBT, hBF, hBtrades, hBcount, hBfree, hBInv⟩ :=
        bookAddOrder_spec L.inv (by rw [hprR]; exact hp) hrest
      obtain ⟨hBbids, hBasks, hBasktr⟩ := hBT hbuyR
      refine ⟨bookAddOrder R.2.1 R.1, T, ?_, hBInv, ?_, ?_, ?_, ?_, hTprops,
        fun _ => ⟨L.chain, hTub, hfifo, ?_⟩, fun h => Bool.noConfusion h, ?_⟩
      · rw [hPN, if_pos hrest, L.flag]
      · rw [hBtrades, L.trades_eq]
      · rw [hBcount, L.count_eq]
      · have hc := L.conserve
        dsimp only at hc
        have hupd : sideQty (bookAddOrder R.2.1 R.1).bids
            = sideQty R.2.1.bids + R.1.qty := by
          rw [hBbids]
          have h2 := sideQty_update
            (show R.1.price < MAX_PRICE_TICKS by rw [hprR]; exact hp)
            R.2.1.bids (R.2.1.bids R.1.price ++ [R.1])
          rw [levelQty_append] at h2
          omega
        have hbb : sideQty (bookAddOrder R.2.1 R.1).asks
            = sideQty R.2.1.asks := by rw [hBasks]
        unfold bookQty
        rw [hBtrades, hupd, hbb, hA]
        omega
      · have h1 := L.free_le
        dsimp only at h1
        rw [hBfree]
        omega
      · intro p
        rw [hBasks]
        exact L.suffix_ids p
      · intro hNC _
        intro pb pa hpb hpa
        rw [hBasks] at hpa
        have hpaE : e.asks pa ≠ [] :=
          ne_nil_of_map_suffix (L.suffix_ids pa) hpa
        by_cases hpbp : pb = R.1.price
        · have hbrk := L.break_cond hrest
          dsimp only at hbrk
          have hRsum : R.2.1.ask_tracker.summary_word ≠ 0 := by
            intro h0
            exact hpa (asks_empty_of_summary_zero L.inv h0 pa)
          obtain ⟨hminlt, -, hmin⟩ := asks_getBestAsk L.inv hRsum
          have hpamin : ¬ (pa < R.2.1.ask_tracker.getBestAsk) := by
            intro hlt
            exact hpa (hmin pa hlt)
          rcases hbrk with hlt | h0 <;> omega
        · rw [hBbids, Function.update_noteq hpbp] at hpb
          have hpbE : e.bids pb ≠ [] := by
            rw [L.bids_eq] at hpb
            exact hpb
          exact hNC pb pa hpbE hpaE
    · have hq0 : R.1.qty = 0 := by omega
      refine ⟨deallocateOrder R.2.1 R.1.slot, T, ?_, ?_, ?_, ?_, ?_, ?_,
        hTprops, fun _ => ⟨L.chain, hTub, hfifo, ?_⟩,
        fun h => Bool.noConfusion h, ?_⟩
      · rw [hPN, if_neg hrest, L.flag]
      · exact ⟨L.inv.bidWF, L.inv.askWF, L.inv.bidMatch, L.inv.askMatch,
          L.inv.hiEmpty, L.inv.bidPos, L.inv.askPos⟩
      · rw [show (deallocateOrder R.2.1 R.1.slot).trades = R.2.1.trades from rfl,
          L.trades_eq]
      · rw [show (deallocateOrder R.2.1 R.1.slot).trades_executed
            = R.2.1.trades_executed from rfl, L.count_eq]
      · have hc := L.conserve
        dsimp only at hc
        unfold bookQty
        rw [show (deallocateOrder R.2.1 R.1.slot).asks = R.2.1.asks from rfl,
          show (deallocateOrder R.2.1 R.1.slot).bids = R.2.1.bids from rfl,
          show (deallocateOrder R.2.1 R.1.slot).trades = R.2.1.trades from rfl,
          hA]
        omega
      · have h1 := L.free_le
        dsimp only at h1
        have h2 : (deallocateOrder R.2.1 R.1.slot).free_idx
            = R.2.1.free_idx + 1 := rfl
        omega
      · intro p
        exact L.suffix_ids p
      · intro hNC _
        intro pb pa hpb hpa
        have hpaE : e.asks pa ≠ [] :=
          ne_nil_of_map_suffix (L.suffix_ids pa) hpa
        have hpbE : e.bids pb ≠ [] := by
          rw [show (deallocateOrder R.2.1 R.1.slot).bids = R.2.1.bids from rfl,
            L.bids_eq] at hpb
          exact hpb
        exact hNC pb pa hpbE hpaE

-- ### arena exhaustion and the initial state

theorem processNewOrder_exhausted {e : EngineState} (id price qty : Nat)
    (is_buy : Bool) (h : e.free_idx = 0) :
    processNewOrder e id price qty is_buy = .error .arenaExhausted ∧
    stepRun e ⟨id, price, qty, is_buy⟩ = e := by
  have halloc : allocateOrder e id price qty is_buy
      = .error .arenaExhausted := by
    unfold allocateOrder
    rw [if_pos h]
  have hpn : processNewOrder e id price qty is_buy
      = .error .arenaExhausted := by
    unfold processNewOrder
    rw [halloc]
  refine ⟨hpn, ?_⟩
  unfold stepRun
  rw [hpn]

theorem engineInv_init : EngineInv initEngine := by
  constructor
  · refine ⟨by simp [initEngine], fun w => by simp [initEngine],
      fun w _ => rfl, fun w _ => ?_⟩
    simp [initEngine, Nat.zero_testBit]
  · refine ⟨by simp [initEngine], fun w => by simp [initEngine],
      fun w _ => rfl, fun w _ => ?_⟩
    simp [initEngine, Nat.zero_testBit]
  · intro p _
    simp [initEngine, FastPriceTracker.activeAt, Nat.zero_testBit]
  · intro p _
    simp [initEngine, FastPriceTracker.activeAt, Nat.zero_testBit]
  · intro p _
    exact ⟨rfl, rfl⟩
  · intro p o ho
    simp [initEngine] at ho
  · intro p o ho
    simp [initEngine] at ho

theorem noCross_init : NoCross initEngine := by
  intro pb pa hpb _
  exact absurd rfl hpb

theorem bookQty_init : bookQty initEngine = 0 := by
  unfold bookQty sideQty levelQty initEngine
  simp

theorem ordersQty_cons (o : InboundOrder) (os : List InboundOrder) :
    ordersQty (o :: os) = o.qty + ordersQty os := by
  simp [ordersQty]

-- ### running a whole order stream

theorem runFrom_spec : ∀ (orders : List InboundOrder) (e : EngineState),
    EngineInv e → (∀ o ∈ orders, ValidOrder o) →
    orders.length ≤ e.free_idx →
    EngineInv (orders.foldl stepRun e) ∧
    ordersQty orders + bookQty e + 2 * fillSum e.trades
      = bookQty (orders.foldl stepRun e)
        + 2 * fillSum (orders.foldl stepRun e).trades ∧
    e.free_idx ≤ (orders.foldl stepRun e).free_idx + orders.length ∧
    (NoCross e → (∀ o ∈ orders, o.is_buy = false → 1 ≤ o.price) →
      NoCross (orders.foldl stepRun e)) := by
  intro orders
  induction orders with
  | nil =>
    intro e hInv _ _
    refine ⟨hInv, by simp [ordersQty], by simp, fun h _ => h⟩
  | cons o rest ih =>
    intro e hInv hvalid hlen
    have hov : ValidOrder o := hvalid o (List.mem_cons_self o rest)
    have hfree : 0 < e.free_idx := by
      simp only [List.length_cons] at hlen
      omega
    obtain ⟨e2, T, hok, hInv2, htr, hcnt, hcons, hfr, hTp, hbuyp, hsellp,
      hNCp⟩ := processNewOrder_spec o.id o.price o.qty o.is_buy hInv hfree
        hov.1 hov.2
    have hstep : stepRun e o = e2 := by
      unfold stepRun
      rw [hok]
    have hfold : (o :: rest).foldl stepRun e = rest.foldl stepRun e2 := by
      rw [List.foldl_cons, hstep]
    rw [hfold]
    have hlen2 : rest.length ≤ e2.free_idx := by
      simp only [List.length_cons] at hlen
      omega
    obtain ⟨hI, hC, hF, hN⟩ := ih e2 hInv2
      (fun o' ho' => hvalid o' (List.mem_cons_of_mem o ho')) hlen2
    refine ⟨hI, ?_, ?_, ?_⟩
    · rw [ordersQty_cons]
      have hfill2 : fillSum e2.trades = fillSum e.trades + fillSum T := by
        rw [htr, fillSum_append]
      omega
    · simp only [List.length_cons]
      omega
    · intro hNC hsell
      exact hN (hNCp hNC (hsell o (List.mem_cons_self o rest)))
        (fun o' ho' => hsell o' (List.mem_cons_of_mem o ho'))

-- ### fuel does not matter once the loop exits on its own

theorem matchBuyLoop_stable (fuel : Nat) :
    ∀ g inbound e, fuel ≤ g → (matchBuyLoop fuel inbound e).2.2 = true →
      matchBuyLoop g inbound e = matchBuyLoop fuel inbound e := by
  induction fuel with
  | zero =>
    intro g inbound e _ hflag
    simp [matchBuyLoop] at hflag
  | succ fuel ih =>
    intro g inbound e hg hflag
    obtain ⟨g', rfl⟩ : ∃ g', g = g' + 1 := ⟨g - 1, by omega⟩
    by_cases hq : inbound.qty = 0
    · simp [matchBuyLoop, hq]
    · by_cases hbr : e.ask_tracker.getBestAsk > inbound.price ∨
          e.ask_tracker.getBestAsk = MAX_PRICE_TICKS
      · have h1 : matchBuyLoop (fuel + 1) inbound e = (inbound, e, true) := by
          simp only [matchBuyLoop]
          rw [if_neg hq, if_pos hbr]
        have h2 : matchBuyLoop (g' + 1) inbound e = (inbound, e, true) := by
          simp only [matchBuyLoop]
          rw [if_neg hq, if_pos hbr]
        rw [h1, h2]
      · cases hl : e.asks e.ask_tracker.getBestAsk with
        | nil =>
          have h1 : matchBuyLoop (fuel + 1) inbound e = (inbound, e, false) := by
            simp only [matchBuyLoop]
            rw [if_neg hq, if_neg hbr, hl]
          rw [h1] at hflag
          exact absurd hflag (by simp)
        | cons resting lrest =>
          have h1 : matchBuyLoop (fuel + 1) inbound e
              = matchBuyLoop fuel
                  (executeTrade e inbound resting e.ask_tracker.getBestAsk false).1
                  (executeTrade e inbound resting e.ask_tracker.getBestAsk false).2 := by
            simp only [matchBuyLoop]
            rw [if_neg hq, if_neg hbr, hl]
          have h2 : matchBuyLoop (g' + 1) inbound e
              = matchBuyLoop g'
                  (executeTrade e inbound resting e.ask_tracker.getBestAsk false).1
                  (executeTrade e inbound resting e.ask_tracker.getBestAsk false).2 := by
            simp only [matchBuyLoop]
            rw [if_neg hq, if_neg hbr, hl]
          rw [h1] at hflag
          rw [h1, h2]
          exact ih g' _ _ (by omega) hflag

theorem matchSellLoop_stable (fuel : Nat) :
    ∀ g inbound e, fuel ≤ g → (matchSellLoop fuel inbound e).2.2 = true →
      matchSellLoop g inbound e = matchSellLoop fuel inbound e := by
  induction fuel with
  | zero =>
    intro g inbound e _ hflag
    simp [matchSellLoop] at hflag
  | succ fuel ih =>
    intro g inbound e hg hflag
    obtain ⟨g', rfl⟩ : ∃ g', g = g' + 1 := ⟨g - 1, by omega⟩
    by_cases hq : inbound.qty = 0
    · simp [matchSellLoop, hq]
    · by_cases hbr : e.bid_tracker.getBestBid < inbound.price ∨
          e.bid_tracker.getBestBid = 0
      · have h1 : matchSellLoop (fuel + 1) inbound e = (inbound, e, true) := by
          simp only [matchSellLoop]
          rw [if_neg hq, if_pos hbr]
        have h2 : matchSellLoop (g' + 1) inbound e = (inbound, e, true) := by
          simp only [matchSellLoop]
          rw [if_neg hq, if_pos hbr]
        rw [h1, h2]
      · cases hl : e.bids e.bid_tracker.getBestBid with
        | nil =>
          have h1 : matchSellLoop (fuel + 1) inbound e = (inbound, e, false) := by
            simp only [matchSellLoop]
            rw [if_neg hq, if_neg hbr, hl]
          rw [h1] at hflag
          exact absurd hflag (by simp)
        | cons resting lrest =>
          have h1 : matchSellLoop (fuel + 1) inbound e
              = matchSellLoop fuel
                  (executeTrade e inbound resting e.bid_tracker.getBestBid true).1
                  (executeTrade e inbound resting e.bid_tracker.getBestBid true).2 := by
            simp only [matchSellLoop]
            rw [if_neg hq, if_neg hbr, hl]
          have h2 : matchSellLoop (g' + 1) inbound e
              = matchSellLoop g'
                  (executeTrade e inbound resting e.bid_tracker.getBestBid true).1
                  (executeTrade e inbound resting e.bid_tracker.getBestBid true).2 := by
            simp only [matchSellLoop]
            rw [if_neg hq, if_neg hbr, hl]
          rw [h1] at hflag
          rw [h1, h2]
          exact ih g' _ _ (by omega) hflag

-- ### what the sell loop trades against (the tick-0 sentinel collision)

set_option maxRecDepth 4096 in
theorem matchSellLoop_trades_iff {e : EngineState} (inbound : Order)
    (hInv : EngineInv e) (hq : 0 < inbound.qty) :
    ((e.trades_executed
        < (matchSellLoop (matchFuel e) inbound e).2.1.trades_executed) ↔
      ∃ b, b < MAX_PRICE_TICKS ∧ e.bids b ≠ [] ∧ inbound.price ≤ b ∧ 1 ≤ b) ∧
    (matchSellLoop (matchFuel e) inbound e).2.1.bids 0 = e.bids 0 := by
  have hfuel : sideCount e.bids + 1 ≤ matchFuel e := by
    unfold matchFuel bookOrderCount
    omega
  obtain ⟨T, L⟩ := matchSellLoop_spec (matchFuel e) inbound e hInv hfuel
  refine ⟨⟨?_, ?_⟩, L.bids0_eq⟩
  · intro hc
    have hT : T ≠ [] := by
      intro h0
      rw [L.count_eq, h0] at hc
      simp at hc
    obtain ⟨t, ht⟩ := List.exists_mem_of_ne_nil T hT
    obtain ⟨hub, hlb, hpos, hlt, -⟩ := L.bounds t ht
    have hsum : e.bid_tracker.summary_word ≠ 0 := by
      intro h0
      have hz : e.bid_tracker.getBestBid = 0 := by
        rw [FastPriceTracker.getBestBid, if_pos h0]
      omega
    obtain ⟨hblt, hbne, -⟩ := bids_getBestBid hInv hsum
    exact ⟨e.bid_tracker.getBestBid, hblt, hbne, by omega, by omega⟩
  · rintro ⟨b, hblt, hbne, hble, hb1⟩
    have hsum : e.bid_tracker.summary_word ≠ 0 := by
      intro h0
      exact hbne (bids_empty_of_summary_zero hInv h0 b)
    obtain ⟨hmlt, hmne, hmax⟩ := bids_getBestBid hInv hsum
    have hbm : b ≤ e.bid_tracker.getBestBid := hmax b hbne
    obtain ⟨f, hf⟩ : ∃ f, matchFuel e = f + 1 :=
      ⟨matchFuel e - 1, by unfold matchFuel; omega⟩
    have hbr : ¬ (e.bid_tracker.getBestBid < inbound.price ∨
        e.bid_tracker.getBestBid = 0) := by
      push_neg
      constructor <;> omega
    cases hl : e.bids e.bid_tracker.getBestBid with
    | nil => exact absurd hl hmne
    | cons resting lrest =>
      have hne0 : ¬ (inbound.qty = 0) := by omega
      have hunf : matchSellLoop (matchFuel e) inbound e
          = matchSellLoop f
              (executeTrade e inbound resting e.bid_tracker.getBestBid true).1
              (executeTrade e inbound resting e.bid_tracker.getBestBid true).2 := by
        rw [hf]
        simp only [matchSellLoop]
        rw [if_neg hne0, if_neg hbr, hl]
      have hlenS : (e.bids e.bid_tracker.getBestBid).length
          ≤ sideCount e.bids := length_le_sideCount hmlt e.bids
      have hlen1 : (e.bids e.bid_tracker.getBestBid).length = lrest.length + 1 := by
        rw [hl]
        simp
      by_cases hfull : resting.qty ≤ inbound.qty
      · obtain ⟨-, hbids, -, -, -, -, hcount, -, hInv1⟩ :=
          executeTrade_bid_full hInv hmlt hl hfull
        have hcnt : sideCount
            (executeTrade e inbound resting e.bid_tracker.getBestBid true).2.bids
            + 1 = sideCount e.bids := by
          rw [hbids]
          have h2 := sideCount_update hmlt e.bids lrest
          omega
        have hfuel1 : sideCount
            (executeTrade e inbound resting e.bid_tracker.getBestBid true).2.bids
            + 1 ≤ f := by
          unfold matchFuel bookOrderCount at hf
          omega
        obtain ⟨T', L'⟩ := matchSellLoop_spec f _ _ hInv1 hfuel1
        rw [hunf, L'.count_eq, hcount]
        omega
      · have hpart : inbound.qty < resting.qty := by omega
        obtain ⟨-, hbids, -, -, -, -, hcount, -, hInv1⟩ :=
          executeTrade_bid_partial hInv hmlt hl hpart
        have hcnt : sideCount
            (executeTrade e inbound resting e.bid_tracker.getBestBid true).2.bids
            = sideCount e.bids := by
          rw [hbids]
          have h2 := sideCount_update hmlt e.bids
            ({ resting with qty := resting.qty - inbound.qty } :: lrest)
          have h3 : ({ resting with qty := resting.qty - inbound.qty } :: lrest).length
              = lrest.length + 1 := by simp
          omega
        have hfuel1 : sideCount
            (executeTrade e inbound resting e.bid_tracker.getBestBid true).2.bids
            + 1 ≤ f := by
          unfold matchFuel bookOrderCount at hf
          omega
        obtain ⟨T', L'⟩ := matchSellLoop_spec f _ _ hInv1 hfuel1
        rw [hunf, L'.count_eq, hcount]
        omega

-- ### single-step evaluation lemmas for concrete traces

theorem matchBuyLoop_done {e : EngineState} {inbound : Order} (fuel : Nat)
    (hq : inbound.qty = 0) :
    matchBuyLoop (fuel + 1) inbound e = (inbound, e, true) := by
  simp only [matchBuyLoop]
  rw [if_pos hq]

theorem matchSellLoop_done {e : EngineState} {inbound : Order} (fuel : Nat)
    (hq : inbound.qty = 0) :
    matchSellLoop (fuel + 1) inbound e = (inbound, e, true) := by
  simp only [matchSellLoop]
  rw [if_pos hq]

theorem matchBuyLoop_break_now {e : EngineState} {inbound : Order} (fuel : Nat)
    (hq : inbound.qty ≠ 0)
    (hbr : e.ask_tracker.getBestAsk > inbound.price ∨
      e.ask_tracker.getBestAsk = MAX_PRICE_TICKS) :
    matchBuyLoop (fuel + 1) inbound e = (inbound, e, true) := by
  simp only [matchBuyLoop]
  rw [if_neg hq, if_pos hbr]

theorem matchSellLoop_break_now {e : EngineState} {inbound : Order} (fuel : Nat)
    (hq : inbound.qty ≠ 0)
    (hbr : e.bid_tracker.getBestBid < inbound.price ∨
      e.bid_tracker.getBestBid = 0) :
    matchSellLoop (fuel + 1) inbound e = (inbound, e, true) := by
  simp only [matchSellLoop]
  rw [if_neg hq, if_pos hbr]

theorem matchSellLoop_step {e : EngineState} {inbound : Order} (fuel : Nat)
    (hq : inbound.qty ≠ 0)
    (hbr : ¬(e.bid_tracker.getBestBid < inbound.price ∨
      e.bid_tracker.getBestBid = 0))
    {resting : Order} {lrest : List Order}
    (hl : e.bids e.bid_tracker.getBestBid = resting :: lrest) :
    matchSellLoop (fuel + 1) inbound e
      = matchSellLoop fuel
          (executeTrade e inbound resting e.bid_tracker.getBestBid true).1
          (executeTrade e inbound resting e.bid_tracker.getBestBid true).2 := by
  simp only [matchSellLoop]
  rw [if_neg hq, if_neg hbr, hl]

theorem stepRun_ok (e e' : EngineState) (o : InboundOrder) (flag : Bool)
    (h : processNewOrder e o.id o.price o.qty o.is_buy = .ok (e', flag)) :
    stepRun e o = e' := by
  rw [stepRun, h]

theorem processNewOrder_nomatch_buy {e : EngineState} {id price qty : Nat}
    (hfree : e.free_idx ≠ 0) (hq : qty ≠ 0)
    (hbr : e.ask_tracker.getBestAsk > price ∨
      e.ask_tracker.getBestAsk = MAX_PRICE_TICKS) :
    processNewOrder e id price qty true
      = .ok (bookAddOrder { e with free_idx := e.free_idx - 1 }
          { id := id, price := price, qty := qty, is_buy := true,
            slot := e.free_list (e.free_idx - 1) }, true) := by
  have halloc : allocateOrder e id price qty true
      = .ok ({ id := id, price := price, qty := qty, is_buy := true,
               slot := e.free_list (e.free_idx - 1) },
             { e with free_idx := e.free_idx - 1 }) := by
    unfold allocateOrder
    rw [if_neg hfree]
  set R := matchBuyLoop (matchFuel { e with free_idx := e.free_idx - 1 })
    ({ id := id, price := price, qty := qty, is_buy := true,
       slot := e.free_list (e.free_idx - 1) } : Order)
    { e with free_idx := e.free_idx - 1 } with hR
  have hPN : processNewOrder e id price qty true
      = (if 0 < R.1.qty then Except.ok (bookAddOrder R.2.1 R.1, R.2.2)
         else Except.ok (deallocateOrder R.2.1 R.1.slot, R.2.2)) := by
    unfold processNewOrder
    rw [halloc]
    rfl
  obtain ⟨f, hf⟩ : ∃ f, matchFuel { e with free_idx := e.free_idx - 1 } = f + 1 :=
    ⟨matchFuel { e with free_idx := e.free_idx - 1 } - 1, by unfold matchFuel; omega⟩
  have hq2 : ({ id := id, price := price, qty := qty, is_buy := true,
                slot := e.free_list (e.free_idx - 1) } : Order).qty ≠ 0 := hq
  have hbr2 : ({ e with free_idx := e.free_idx - 1 } : EngineState).ask_tracker.getBestAsk
        > ({ id := id, price := price, qty := qty, is_buy := true,
              slot := e.free_list (e.free_idx - 1) } : Order).price ∨
      ({ e with free_idx := e.free_idx - 1 } : EngineState).ask_tracker.getBestAsk
        = MAX_PRICE_TICKS := hbr
  have hloop : R = (({ id := id, price := price, qty := qty, is_buy := true,
                        slot := e.free_list (e.free_idx - 1) } : Order),
      ({ e with free_idx := e.free_idx - 1 } : EngineState), true) := by
    rw [hR, hf]
    exact matchBuyLoop_break_now f hq2 hbr2
  rw [hPN, hloop]
  dsimp only
  rw [if_pos (Nat.pos_of_ne_zero hq)]

theorem processNewOrder_nomatch_sell {e : EngineState} {id price qty : Nat}
    (hfree : e.free_idx ≠ 0) (hq : qty ≠ 0)
    (hbr : e.bid_tracker.getBestBid < price ∨ e.bid_tracker.getBestBid = 0) :
    processNewOrder e id price qty false
      = .ok (bookAddOrder { e with free_idx := e.free_idx - 1 }
          { id := id, price := price, qty := qty, is_buy := false,
            slot := e.free_list (e.free_idx - 1) }, true) := by
  have halloc : allocateOrder e id price qty false
      = .ok ({ id := id, price := price, qty := qty, is_buy := false,
               slot := e.free_list (e.free_idx - 1) },
             { e with free_idx := e.free_idx - 1 }) := by
    unfold allocateOrder
    rw [if_neg hfree]
  set R := matchSellLoop (matchFuel { e with free_idx := e.free_idx - 1 })
    ({ id := id, price := price, qty := qty, is_buy := false,
       slot := e.free_list (e.free_idx - 1) } : Order)
    { e with free_idx := e.free_idx - 1 } with hR
  have hPN : processNewOrder e id price qty false
      = (if 0 < R.1.qty then Except.ok (bookAddOrder R.2.1 R.1, R.2.2)
         else Except.ok (deallocateOrder R.2.1 R.1.slot, R.2.2)) := by
    unfold processNewOrder
    rw [halloc]
    rfl
  obtain ⟨f, hf⟩ : ∃ f, matchFuel { e with free_idx := e.free_idx - 1 } = f + 1 :=
    ⟨matchFuel { e with free_idx := e.free_idx - 1 } - 1, by unfold matchFuel; omega⟩
  have hq2 : ({ id := id, price := price, qty := qty, is_buy := false,
                slot := e.free_list (e.free_idx - 1) } : Order).qty ≠ 0 := hq
  have hbr2 : ({ e with free_idx := e.free_idx - 1 } : EngineState).bid_tracker.getBestBid
        < ({ id := id, price := price, qty := qty, is_buy := false,
              slot := e.free_list (e.free_idx - 1) } : Order).price ∨
      ({ e with free_idx := e.free_idx - 1 } : EngineState).bid_tracker.getBestBid
        = 0 := hbr
  have hloop : R = (({ id := id, price := price, qty := qty, is_buy := false,
                        slot := e.free_list (e.free_idx - 1) } : Order),
      ({ e with free_idx := e.free_idx - 1 } : EngineState), true) := by
    rw [hR, hf]
    exact matchSellLoop_break_now f hq2 hbr2
  rw [hPN, hloop]
  dsimp only
  rw [if_pos (Nat.pos_of_ne_zero hq)]

-- ### `63 - clz` on tiny words

theorem msb64_one : msb64 1 = 0 := by
  unfold msb64
  have h := (Nat.log2_lt (by norm_num)).mpr (show (1 : Nat) < 2 ^ 1 by norm_num)
  omega

theorem msb64_two : msb64 2 = 1 := by
  unfold msb64
  have h1 := (Nat.log2_lt (by norm_num)).mpr (show (2 : Nat) < 2 ^ 2 by norm_num)
  have h2 := (Nat.le_log2 (by norm_num)).mpr (show 2 ^ 1 ≤ 2 by norm_num)
  omega

-- ### a whole run from the fresh engine

theorem run_facts (orders : List InboundOrder)
    (hvalid : ∀ o ∈ orders, ValidOrder o)
    (hlen : orders.length ≤ MAX_ORDERS) :
    EngineInv (run orders) ∧
    ordersQty orders = bookQty (run orders) + 2 * fillSum (run orders).trades ∧
    MAX_ORDERS ≤ (run orders).free_idx + orders.length ∧
    ((∀ o ∈ orders, o.is_buy = false → 1 ≤ o.price) → NoCross (run orders)) := by
  have hlen' : orders.length ≤ initEngine.free_idx := hlen
  obtain ⟨hI, hC, hF, hN⟩ :=
    runFrom_spec orders initEngine engineInv_init hvalid hlen'
  have hrun : run orders = orders.foldl stepRun initEngine := rfl
  rw [hrun]
  have h0 : bookQty initEngine = 0 := bookQty_init
  have ht0 : fillSum initEngine.trades = 0 := rfl
  have hM : initEngine.free_idx = MAX_ORDERS := rfl
  exact ⟨hI, by omega, by omega, fun hs => hN noCross_init hs⟩


theorem stepRun_eval (e e' : EngineState) (id price qty : Nat)
    (is_buy flag : Bool)
    (h : processNewOrder e id price qty is_buy = .ok (e', flag)) :
    stepRun e ⟨id, price, qty, is_buy⟩ = e' := by
  unfold stepRun
  dsimp only
  rw [h]

-- ### the concrete two-order trace at tick 0: the sell rests instead of
-- matching the resting bid

theorem run_tick0_facts :
    (run [⟨1, 0, 5, true⟩, ⟨2, 0, 5, false⟩]).bids 0 = [⟨1, 0, 5, true, 0⟩] ∧
    (run [⟨1, 0, 5, true⟩, ⟨2, 0, 5, false⟩]).asks 0 = [⟨2, 0, 5, false, 1⟩] ∧
    (run [⟨1, 0, 5, true⟩, ⟨2, 0, 5, false⟩]).trades_executed = 0 := by
  set E1 : EngineState :=
    { bids := Function.update (fun _ => []) 0 [⟨1, 0, 5, true, 0⟩],
      asks := fun _ => [],
      bid_tracker := ⟨1, Function.update (fun _ => 0) 0 1⟩,
      ask_tracker := ⟨0, fun _ => 0⟩,
      free_idx := MAX_ORDERS - 1,
      free_list := fun i => MAX_ORDERS - 1 - i,
      trades_executed := 0, trades := [] } with hE1
  set E2 : EngineState :=
    { bids := Function.update (fun _ => []) 0 [⟨1, 0, 5, true, 0⟩],
      asks := Function.update (fun _ => []) 0 [⟨2, 0, 5, false, 1⟩],
      bid_tracker := ⟨1, Function.update (fun _ => 0) 0 1⟩,
      ask_tracker := ⟨1, Function.update (fun _ => 0) 0 1⟩,
      free_idx := MAX_ORDERS - 2,
      free_list := fun i => MAX_ORDERS - 1 - i,
      trades_executed := 0, trades := [] } with hE2
  have hbrA : initEngine.ask_tracker.getBestAsk > 0 ∨
      initEngine.ask_tracker.getBestAsk = MAX_PRICE_TICKS := by
    right
    rw [FastPriceTracker.getBestAsk,
      if_pos (show initEngine.ask_tracker.summary_word = 0 from rfl)]
  have h1 : stepRun initEngine ⟨1, 0, 5, true⟩ = E1 := by
    apply stepRun_eval
    rw [processNewOrder_nomatch_buy (by decide) (by decide) hbrA]
    rw [hE1]
    rfl
  have hbb : E1.bid_tracker.getBestBid = 0 := by
    show (FastPriceTracker.mk 1 (Function.update (fun _ => 0) 0 1)).getBestBid = 0
    rw [FastPriceTracker.getBestBid, if_neg (show
      ¬(FastPriceTracker.mk 1 (Function.update (fun _ => 0) 0 1)).summary_word = 0
      by decide)]
    show msb64 1 * 64 + msb64 (Function.update (fun _ => 0) 0 1 (msb64 1)) = 0
    rw [msb64_one, Function.update_same, msb64_one]
  have h2 : stepRun E1 ⟨2, 0, 5, false⟩ = E2 := by
    apply stepRun_eval
    rw [processNewOrder_nomatch_sell (by decide) (by decide) (Or.inr hbb)]
    rw [hE1, hE2]
    rfl
  have hrun : run [⟨1, 0, 5, true⟩, ⟨2, 0, 5, false⟩] = E2 := by
    unfold run
    rw [List.foldl_cons, h1, List.foldl_cons, h2, List.foldl_nil]
  rw [hrun, hE2]
  exact ⟨rfl, rfl, rfl⟩

-- ### evaluating a call whose sell loop consumed the whole inbound quantity

theorem processNewOrder_sell_eval {e : EngineState} {id price qty : Nat}
    (hfree : e.free_idx ≠ 0)
    {out : Order × EngineState × Bool}
    (hloop : matchSellLoop (matchFuel { e with free_idx := e.free_idx - 1 })
        { id := id, price := price, qty := qty, is_buy := false,
          slot := e.free_list (e.free_idx - 1) }
        { e with free_idx := e.free_idx - 1 } = out)
    (hq0 : out.1.qty = 0) :
    processNewOrder e id price qty false
      = .ok (deallocateOrder out.2.1 out.1.slot, out.2.2) := by
  have halloc : allocateOrder e id price qty false
      = .ok ({ id := id, price := price, qty := qty, is_buy := false,
               slot := e.free_list (e.free_idx - 1) },
             { e with free_idx := e.free_idx - 1 }) := by
    unfold allocateOrder
    rw [if_neg hfree]
  set R := matchSellLoop (matchFuel { e with free_idx := e.free_idx - 1 })
    ({ id := id, price := price, qty := qty, is_buy := false,
       slot := e.free_list (e.free_idx - 1) } : Order)
    { e with free_idx := e.free_idx - 1 } with hR
  have hPN : processNewOrder e id price qty false
      = (if 0 < R.1.qty then Except.ok (bookAddOrder R.2.1 R.1, R.2.2)
         else Except.ok (deallocateOrder R.2.1 R.1.slot, R.2.2)) := by
    unfold processNewOrder
    rw [halloc]
    rfl
  rw [hPN, hloop, if_neg (by omega)]

-- ### evaluating a call whose buy loop consumed the whole inbound quantity

theorem processNewOrder_buy_eval {e : EngineState} {id price qty : Nat}
    (hfree : e.free_idx ≠ 0)
    {out : Order × EngineState × Bool}
    (hloop : matchBuyLoop (matchFuel { e with free_idx := e.free_idx - 1 })
        { id := id, price := price, qty := qty, is_buy := true,
          slot := e.free_list (e.free_idx - 1) }
        { e with free_idx := e.free_idx - 1 } = out)
    (hq0 : out.1.qty = 0) :
    processNewOrder e id price qty true
      = .ok (deallocateOrder out.2.1 out.1.slot, out.2.2) := by
  have halloc : allocateOrder e id price qty true
      = .ok ({ id := id, price := price, qty := qty, is_buy := true,
               slot := e.free_list (e.free_idx - 1) },
             { e with free_idx := e.free_idx - 1 }) := by
    unfold allocateOrder
    rw [if_neg hfree]
  set R := matchBuyLoop (matchFuel { e with free_idx := e.free_idx - 1 })
    ({ id := id, price := price, qty := qty, is_buy := true,
       slot := e.free_list (e.free_idx - 1) } : Order)
    { e with free_idx := e.free_idx - 1 } with hR
  have hPN : processNewOrder e id price qty true
      = (if 0 < R.1.qty then Except.ok (bookAddOrder R.2.1 R.1, R.2.2)
         else Except.ok (deallocateOrder R.2.1 R.1.slot, R.2.2)) := by
    unfold processNewOrder
    rw [halloc]
    rfl
  rw [hPN, hloop, if_neg (by omega)]

-- ### the concrete two-order trace at tick 1: the sell fully matches the
-- resting bid and one trade of quantity 5 is executed

theorem run_tick1_facts :
    (run [⟨1, 1, 5, true⟩, ⟨2, 1, 5, false⟩]).trades = [⟨2, 1, 1, 5⟩] ∧
    bookQty (run [⟨1, 1, 5, true⟩, ⟨2, 1, 5, false⟩]) = 0 ∧
    (run [⟨1, 1, 5, true⟩, ⟨2, 1, 5, false⟩]).trades_executed = 1 := by
  set E1 : EngineState :=
    { bids := Function.update (fun _ => []) 1 [⟨1, 1, 5, true, 0⟩],
      asks := fun _ => [],
      bid_tracker := ⟨1, Function.update (fun _ => 0) 0 2⟩,
      ask_tracker := ⟨0, fun _ => 0⟩,
      free_idx := MAX_ORDERS - 1,
      free_list := fun i => MAX_ORDERS - 1 - i,
      trades_executed := 0, trades := [] } with hE1
  set E1b : EngineState :=
    { bids := Function.update (fun _ => []) 1 [⟨1, 1, 5, true, 0⟩],
      asks := fun _ => [],
      bid_tracker := ⟨1, Function.update (fun _ => 0) 0 2⟩,
      ask_tracker := ⟨0, fun _ => 0⟩,
      free_idx := MAX_ORDERS - 2,
      free_list := fun i => MAX_ORDERS - 1 - i,
      trades_executed := 0, trades := [] } with hE1b
  set E3 : EngineState :=
    { bids := Function.update
        (Function.update (fun _ => []) 1 [⟨1, 1, 5, true, 0⟩]) 1 [],
      asks := fun _ => [],
      bid_tracker := ⟨0, Function.update (Function.update (fun _ => 0) 0 2) 0 0⟩,
      ask_tracker := ⟨0, fun _ => 0⟩,
      free_idx := MAX_ORDERS - 1,
      free_list := Function.update (fun i => MAX_ORDERS - 1 - i) (MAX_ORDERS - 2) 0,
      trades_executed := 1, trades := [⟨2, 1, 1, 5⟩] } with hE3
  have hbrA : initEngine.ask_tracker.getBestAsk > 1 ∨
      initEngine.ask_tracker.getBestAsk = MAX_PRICE_TICKS := by
    right
    rw [FastPriceTracker.getBestAsk,
      if_pos (show initEngine.ask_tracker.summary_word = 0 from rfl)]
  have h1 : stepRun initEngine ⟨1, 1, 5, true⟩ = E1 := by
    apply stepRun_eval
    rw [processNewOrder_nomatch_buy (by decide) (by decide) hbrA]
    rw [hE1]
    rfl
  have hbb : E1b.bid_tracker.getBestBid = 1 := by
    show (FastPriceTracker.mk 1 (Function.update (fun _ => 0) 0 2)).getBestBid = 1
    rw [FastPriceTracker.getBestBid, if_neg (show
      ¬(FastPriceTracker.mk 1 (Function.update (fun _ => 0) 0 2)).summary_word = 0
      by decide)]
    show msb64 1 * 64 + msb64 (Function.update (fun _ => 0) 0 2 (msb64 1)) = 1
    rw [msb64_one, Function.update_same, msb64_two]
  have hexec : executeTrade E1b ⟨2, 1, 5, false, 1⟩ ⟨1, 1, 5, true, 0⟩ 1 true
      = (⟨2, 1, 0, false, 1⟩, E3) := by
    rw [hE1b, hE3]
    rfl
  have hbrB : ¬(E1b.bid_tracker.getBestBid < (⟨2, 1, 5, false, 1⟩ : Order).price ∨
      E1b.bid_tracker.getBestBid = 0) := by
    rw [hbb]
    decide
  have hl : E1b.bids E1b.bid_tracker.getBestBid = ⟨1, 1, 5, true, 0⟩ :: [] := by
    rw [hbb, hE1b]
    rfl
  have hloop : matchSellLoop (matchFuel E1b) ⟨2, 1, 5, false, 1⟩ E1b
      = (⟨2, 1, 0, false, 1⟩, E3, true) := by
    obtain ⟨f, hf, hf1⟩ : ∃ f, matchFuel E1b = f + 1 ∧ 1 ≤ f :=
      ⟨matchFuel E1b - 1, by unfold matchFuel; omega, by unfold matchFuel; omega⟩
    obtain ⟨g, hg⟩ : ∃ g, f = g + 1 := ⟨f - 1, by omega⟩
    rw [hf, matchSellLoop_step f (by decide) hbrB hl, hbb, hexec]
    rw [hg]
    exact matchSellLoop_done g rfl
  have hstate : ({ E1 with free_idx := E1.free_idx - 1 } : EngineState) = E1b := by
    rw [hE1, hE1b]
    rfl
  have hslot : E1.free_list (E1.free_idx - 1) = 1 := by
    rw [hE1]
    rfl
  have hloop2 : matchSellLoop (matchFuel { E1 with free_idx := E1.free_idx - 1 })
      (⟨2, 1, 5, false, E1.free_list (E1.free_idx - 1)⟩ : Order)
      { E1 with free_idx := E1.free_idx - 1 }
      = (⟨2, 1, 0, false, 1⟩, E3, true) := by
    rw [hstate, hslot]
    exact hloop
  have h2 : stepRun E1 ⟨2, 1, 5, false⟩ = deallocateOrder E3 1 := by
    refine stepRun_eval E1 (deallocateOrder E3 1) 2 1 5 false true ?_
    rw [processNewOrder_sell_eval (by decide) hloop2 rfl]
  have hrun : run [⟨1, 1, 5, true⟩, ⟨2, 1, 5, false⟩] = deallocateOrder E3 1 := by
    unfold run
    rw [List.foldl_cons, h1, List.foldl_cons, h2, List.foldl_nil]
  have hbids : (deallocateOrder E3 1).bids = (fun _ => ([] : List Order)) := by
    rw [hE3]
    show Function.update (Function.update (fun _ => []) 1 [⟨1, 1, 5, true, 0⟩]) 1 []
      = (fun _ => ([] : List Order))
    rw [Function.update_idem]
    exact Function.update_eq_self 1 (fun _ => ([] : List Order))
  refine ⟨by rw [hrun, hE3]; rfl, ?_, by rw [hrun, hE3]; rfl⟩
  rw [hrun]
  show sideQty (deallocateOrder E3 1).bids + sideQty (deallocateOrder E3 1).asks = 0
  rw [hbids]
  have hasks : (deallocateOrder E3 1).asks = (fun _ => ([] : List Order)) := by
    rw [hE3]
    rfl
  rw [hasks]
  simp [sideQty, levelQty]

-- ## The claims

/-- C1 (amended): after every sequence of valid `process_new_order` calls in
which every sell is priced at tick 1 or above, the book is never crossed:
every non-empty bid tick lies strictly below every non-empty ask tick.  The
original claim, which also covers sequences resting orders at tick 0 on both
sides, is refuted by `c1_crossed_book_at_tick_zero`: `getBestBid`'s empty
sentinel `0` collides with the legal tick 0, so a sell priced 0 never matches
a resting bid at tick 0 and both sides can rest there simultaneously. -/
theorem c1_no_crossed_book (orders : List InboundOrder)
    (hvalid : ∀ o ∈ orders, ValidOrder o)
    (hlen : orders.length ≤ MAX_ORDERS)
    (hsell : ∀ o ∈ orders, o.is_buy = false → 1 ≤ o.price) :
    NoCross (run orders) :=
  (run_facts orders hvalid hlen).2.2.2 hsell

/-- Witness for C1: a buy at tick 2 then a sell at tick 3, both valid, leave
an uncrossed book. -/
theorem c1_no_crossed_book_witness :
    NoCross (run [⟨1, 2, 5, true⟩, ⟨2, 3, 4, false⟩]) :=
  c1_no_crossed_book [⟨1, 2, 5, true⟩, ⟨2, 3, 4, false⟩]
    (by
      intro o ho
      simp only [List.mem_cons, List.not_mem_nil, or_false] at ho
      rcases ho with rfl | rfl
      · exact ⟨by decide, by decide⟩
      · exact ⟨by decide, by decide⟩)
    (by decide)
    (by
      intro o ho hsell
      simp only [List.mem_cons, List.not_mem_nil, or_false] at ho
      rcases ho with rfl | rfl
      · exact absurd hsell (by decide)
      · decide)

/-- Counterexample to C1 as stated: after the valid calls buy(tick 0, qty 5)
then sell(tick 0, qty 5), both sides rest a live order at tick 0, so no side
is empty and the highest bid tick is not strictly below the lowest ask tick:
the book is crossed. -/
theorem c1_crossed_book_at_tick_zero :
    (run [⟨1, 0, 5, true⟩, ⟨2, 0, 5, false⟩]).bids 0 ≠ [] ∧
    (run [⟨1, 0, 5, true⟩, ⟨2, 0, 5, false⟩]).asks 0 ≠ [] ∧
    ¬NoCross (run [⟨1, 0, 5, true⟩, ⟨2, 0, 5, false⟩]) := by
  obtain ⟨hb, ha, -⟩ := run_tick0_facts
  have hb' : (run [⟨1, 0, 5, true⟩, ⟨2, 0, 5, false⟩]).bids 0 ≠ [] := by
    rw [hb]
    exact List.cons_ne_nil _ _
  have ha' : (run [⟨1, 0, 5, true⟩, ⟨2, 0, 5, false⟩]).asks 0 ≠ [] := by
    rw [ha]
    exact List.cons_ne_nil _ _
  exact ⟨hb', ha', fun h => absurd (h 0 0 hb' ha') (Nat.lt_irrefl 0)⟩

/-- C2: `process_new_order` terminates on every valid input from every engine
state reachable by valid inputs.  When a free slot exists the call returns
normally with the matching loop having exited through its own guard (the
`true` flag); when the arena is exhausted the call surfaces the error and
still terminates.  Moreover both matching loops are fuel-stable at any fuel
at least `matchFuel`: the value never changes and the completion flag is
`true`, which is exactly the behaviour of the unbounded C++ `while` loop —
including for a sell at price 0 against an empty bid book. -/
theorem c2_process_new_order_terminates (orders : List InboundOrder)
    (id price qty : Nat) (is_buy : Bool) (inbound : Order) (g : Nat)
    (hvalid : ∀ o ∈ orders, ValidOrder o)
    (hlen : orders.length ≤ MAX_ORDERS)
    (hq : 0 < qty) (hp : price < MAX_PRICE_TICKS)
    (hg : matchFuel (run orders) ≤ g) :
    (0 < (run orders).free_idx →
      ∃ e', processNewOrder (run orders) id price qty is_buy
        = Except.ok (e', true)) ∧
    ((run orders).free_idx = 0 →
      processNewOrder (run orders) id price qty is_buy
        = Except.error EngineError.arenaExhausted) ∧
    (matchBuyLoop (matchFuel (run orders)) inbound (run orders)).2.2 = true ∧
    matchBuyLoop g inbound (run orders)
      = matchBuyLoop (matchFuel (run orders)) inbound (run orders) ∧
    (matchSellLoop (matchFuel (run orders)) inbound (run orders)).2.2 = true ∧
    matchSellLoop g inbound (run orders)
      = matchSellLoop (matchFuel (run orders)) inbound (run orders) := by
  have hI := (run_facts orders hvalid hlen).1
  obtain ⟨Tb, Lb⟩ := matchBuyLoop_spec (matchFuel (run orders)) inbound
    (run orders) hI (by unfold matchFuel bookOrderCount; omega)
  obtain ⟨Ts, Ls⟩ := matchSellLoop_spec (matchFuel (run orders)) inbound
    (run orders) hI (by unfold matchFuel bookOrderCount; omega)
  refine ⟨?_, ?_, Lb.flag,
    matchBuyLoop_stable _ g inbound (run orders) hg Lb.flag,
    Ls.flag,
    matchSellLoop_stable _ g inbound (run orders) hg Ls.flag⟩
  · intro hfree
    obtain ⟨e', T, hok, -⟩ := processNewOrder_spec id price qty is_buy hI hfree hq hp
    exact ⟨e', hok⟩
  · intro h0
    exact (processNewOrder_exhausted id price qty is_buy h0).1

/-- Witness for C2 at a concrete input: a sell at price 0 with quantity 1
submitted to the fresh (empty) engine, with surplus fuel 5 above the bound. -/
theorem c2_process_new_order_terminates_witness :
    (0 < (run []).free_idx →
      ∃ e', processNewOrder (run []) 9 0 1 false = Except.ok (e', true)) ∧
    ((run []).free_idx = 0 →
      processNewOrder (run []) 9 0 1 false
        = Except.error EngineError.arenaExhausted) ∧
    (matchBuyLoop (matchFuel (run [])) ⟨9, 0, 1, false, 0⟩ (run [])).2.2 = true ∧
    matchBuyLoop (matchFuel (run []) + 5) ⟨9, 0, 1, false, 0⟩ (run [])
      = matchBuyLoop (matchFuel (run [])) ⟨9, 0, 1, false, 0⟩ (run []) ∧
    (matchSellLoop (matchFuel (run [])) ⟨9, 0, 1, false, 0⟩ (run [])).2.2 = true ∧
    matchSellLoop (matchFuel (run []) + 5) ⟨9, 0, 1, false, 0⟩ (run [])
      = matchSellLoop (matchFuel (run [])) ⟨9, 0, 1, false, 0⟩ (run []) :=
  c2_process_new_order_terminates [] 9 0 1 false ⟨9, 0, 1, false, 0⟩
    (matchFuel (run []) + 5) (by simp) (by decide) (by decide) (by decide)
    (Nat.le_add_right _ 5)

/-- C3 (amended): the sell matching loop trades against the bid book exactly
when some non-empty bid tick `b` satisfies both `b ≥ p` and `b ≥ 1`, and the
level at tick 0 is never touched by a sell.  The original claim — that the
loop is the exact mirror of the buy side, breaking only when the bid side is
empty or `b < p`, so that an inbound sell at price 0 matches a resting bid at
tick 0 — is refuted by `c3_tick_zero_sell_rests_unmatched`: the break test
`best_bid == 0` conflates the empty-book sentinel with the legal tick 0. -/
theorem c3_sell_loop_break_semantics {e : EngineState} (inbound : Order)
    (hInv : EngineInv e) (hq : 0 < inbound.qty) :
    ((e.trades_executed
        < (matchSellLoop (matchFuel e) inbound e).2.1.trades_executed) ↔
      ∃ b, b < MAX_PRICE_TICKS ∧ e.bids b ≠ [] ∧ inbound.price ≤ b ∧ 1 ≤ b) ∧
    (matchSellLoop (matchFuel e) inbound e).2.1.bids 0 = e.bids 0 :=
  matchSellLoop_trades_iff inbound hInv hq

/-- Witness for C3 at a concrete input: a sell at price 1 with quantity 3
against the fresh engine. -/
theorem c3_sell_loop_break_semantics_witness :
    ((initEngine.trades_executed
        < (matchSellLoop (matchFuel initEngine) ⟨9, 1, 3, false, 0⟩
            initEngine).2.1.trades_executed) ↔
      ∃ b, b < MAX_PRICE_TICKS ∧ initEngine.bids b ≠ [] ∧
        (⟨9, 1, 3, false, 0⟩ : Order).price ≤ b ∧ 1 ≤ b) ∧
    (matchSellLoop (matchFuel initEngine) ⟨9, 1, 3, false, 0⟩
        initEngine).2.1.bids 0 = initEngine.bids 0 :=
  c3_sell_loop_break_semantics ⟨9, 1, 3, false, 0⟩ engineInv_init (by decide)

/-- Counterexample to C3 as stated: buy(tick 0, qty 5) rests a bid at tick 0;
the following sell(tick 0, qty 5) should match it under the claimed mirror
semantics (`best_bid = 0 ≥ price = 0`), yet no trade executes and both orders
rest. -/
theorem c3_tick_zero_sell_rests_unmatched :
    (run [⟨1, 0, 5, true⟩, ⟨2, 0, 5, false⟩]).trades_executed = 0 ∧
    (run [⟨1, 0, 5, true⟩, ⟨2, 0, 5, false⟩]).bids 0 = [⟨1, 0, 5, true, 0⟩] ∧
    (run [⟨1, 0, 5, true⟩, ⟨2, 0, 5, false⟩]).asks 0 = [⟨2, 0, 5, false, 1⟩] := by
  obtain ⟨hb, ha, hc⟩ := run_tick0_facts
  exact ⟨hc, hb, ha⟩

/-- C4 (amended): across every sequence of valid calls, the submitted
quantity equals the quantity resting in the book plus TWICE the total filled
quantity of the emitted trade events: `executeTrade` decrements the inbound's
and the resting order's remaining quantity by the fill, so each fill absorbs
twice its quantity.  The spec's unscaled equation Σfilled = Σinbound −
Σresting is refuted by `c4_unscaled_conservation_fails`. -/
theorem c4_quantity_conservation (orders : List InboundOrder)
    (hvalid : ∀ o ∈ orders, ValidOrder o)
    (hlen : orders.length ≤ MAX_ORDERS) :
    ordersQty orders
      = bookQty (run orders) + 2 * fillSum (run orders).trades :=
  (run_facts orders hvalid hlen).2.1

/-- Witness for C4 at a concrete input: a buy and a sell of quantity 5 at
tick 1. -/
theorem c4_quantity_conservation_witness :
    ordersQty [⟨1, 1, 5, true⟩, ⟨2, 1, 5, false⟩]
      = bookQty (run [⟨1, 1, 5, true⟩, ⟨2, 1, 5, false⟩])
        + 2 * fillSum (run [⟨1, 1, 5, true⟩, ⟨2, 1, 5, false⟩]).trades :=
  c4_quantity_conservation [⟨1, 1, 5, true⟩, ⟨2, 1, 5, false⟩]
    (by
      intro o ho
      simp only [List.mem_cons, List.not_mem_nil, or_false] at ho
      rcases ho with rfl | rfl
      · exact ⟨by decide, by decide⟩
      · exact ⟨by decide, by decide⟩)
    (by decide)

/-- Counterexample to C4 as stated: buy(1, 5) then sell(1, 5) fully match,
emitting one trade of quantity 5; the inbound total is 10 and the book rests
0, so the spec's equation would require the filled total to be 10, but it is
5. -/
theorem c4_unscaled_conservation_fails :
    fillSum (run [⟨1, 1, 5, true⟩, ⟨2, 1, 5, false⟩]).trades
      ≠ ordersQty [⟨1, 1, 5, true⟩, ⟨2, 1, 5, false⟩]
        - bookQty (run [⟨1, 1, 5, true⟩, ⟨2, 1, 5, false⟩]) := by
  obtain ⟨ht, hb, -⟩ := run_tick1_facts
  rw [ht, hb]
  norm_num [fillSum, ordersQty]

/-- C5: within the trade events emitted by one `process_new_order` call from
any invariant-satisfying state, resting orders are consumed in non-decreasing
price order for a buy (non-increasing for a sell), and within each price
level strictly in FIFO order: the events' resting ids at each level form a
prefix of the level's queue in insertion order, and the surviving queue (in
particular a partially filled head, which keeps its position) is a suffix of
the original.  The trade-event stream itself is modelled from the spec: the
source only counts trades. -/
theorem c5_price_time_priority {e : EngineState} (id price qty : Nat)
    (is_buy : Bool) (hInv : EngineInv e) (hfree : 0 < e.free_idx)
    (hq : 0 < qty) (hp : price < MAX_PRICE_TICKS) :
    ∃ e' T, processNewOrder e id price qty is_buy = Except.ok (e', true) ∧
      e'.trades = e.trades ++ T ∧
      (is_buy = true → List.Chain' (fun t₁ t₂ => t₁.price ≤ t₂.price) T ∧
        (∀ a, ((T.filter (fun t => t.price == a)).map TradeEvent.resting_id)
          <+: (e.asks a).map Order.id) ∧
        (∀ p, (e'.asks p).map Order.id <:+ (e.asks p).map Order.id)) ∧
      (is_buy = false → List.Chain' (fun t₁ t₂ => t₂.price ≤ t₁.price) T ∧
        (∀ a, ((T.filter (fun t => t.price == a)).map TradeEvent.resting_id)
          <+: (e.bids a).map Order.id) ∧
        (∀ p, (e'.bids p).map Order.id <:+ (e.bids p).map Order.id)) := by
  obtain ⟨e', T, hok, hInv', htr, hcnt, hcons, hfr, hTp, hbuy, hsell, hnc⟩ :=
    processNewOrder_spec id price qty is_buy hInv hfree hq hp
  refine ⟨e', T, hok, htr, fun hb => ?_, fun hs => ?_⟩
  · obtain ⟨h1, h2, h3, h4⟩ := hbuy hb
    exact ⟨h1, h3, h4⟩
  · obtain ⟨h1, h2, h3, h4⟩ := hsell hs
    exact ⟨h1, h3, h4⟩

/-- Witness for C5 at a concrete input: a buy at tick 5, quantity 2, against
the fresh engine. -/
theorem c5_price_time_priority_witness :
    ∃ e' T, processNewOrder initEngine 3 5 2 true = Except.ok (e', true) ∧
      e'.trades = initEngine.trades ++ T ∧
      (true = true → List.Chain' (fun t₁ t₂ => t₁.price ≤ t₂.price) T ∧
        (∀ a, ((T.filter (fun t => t.price == a)).map TradeEvent.resting_id)
          <+: (initEngine.asks a).map Order.id) ∧
        (∀ p, (e'.asks p).map Order.id <:+ (initEngine.asks p).map Order.id)) ∧
      (true = false → List.Chain' (fun t₁ t₂ => t₂.price ≤ t₁.price) T ∧
        (∀ a, ((T.filter (fun t => t.price == a)).map TradeEvent.resting_id)
          <+: (initEngine.bids a).map Order.id) ∧
        (∀ p, (e'.bids p).map Order.id <:+ (initEngine.bids p).map Order.id)) :=
  c5_price_time_priority 3 5 2 true engineInv_init (by decide) (by decide)
    (by decide)

/-- C6: the source performs no input validation at all — there is no
`InvalidOrder` rejection.  A call with `qty = 0` is accepted and returns
normally, a call with `price ≥ MAX_PRICE_TICKS` is accepted and RESTS an
order at the out-of-range level (in the C++ source this writes
`bids_[price]` past the end of the 4096-entry array), and the engine's only
error is `arenaExhausted`. -/
theorem c6_no_invalid_order_rejection :
    (∃ e', processNewOrder initEngine 7 100 0 true = Except.ok (e', true)) ∧
    (∃ e', processNewOrder initEngine 8 5000 3 true = Except.ok (e', true) ∧
      e'.bids 5000 ≠ []) ∧
    ∀ err : EngineError, err = EngineError.arenaExhausted := by
  refine ⟨?_, ?_, fun err => match err with | .arenaExhausted => rfl⟩
  · obtain ⟨f, hf⟩ : ∃ f, matchFuel
        { initEngine with free_idx := initEngine.free_idx - 1 } = f + 1 :=
      ⟨matchFuel { initEngine with free_idx := initEngine.free_idx - 1 } - 1,
       by unfold matchFuel; omega⟩
    have hloopA : matchBuyLoop
        (matchFuel { initEngine with free_idx := initEngine.free_idx - 1 })
        { id := 7, price := 100, qty := 0, is_buy := true,
          slot := initEngine.free_list (initEngine.free_idx - 1) }
        { initEngine with free_idx := initEngine.free_idx - 1 }
        = ({ id := 7, price := 100, qty := 0, is_buy := true,
             slot := initEngine.free_list (initEngine.free_idx - 1) },
           { initEngine with free_idx := initEngine.free_idx - 1 }, true) := by
      rw [hf]
      exact matchBuyLoop_done f rfl
    exact ⟨_, processNewOrder_buy_eval (by decide) hloopA rfl⟩
  · have hbrA : initEngine.ask_tracker.getBestAsk > 5000 ∨
        initEngine.ask_tracker.getBestAsk = MAX_PRICE_TICKS := by
      right
      rw [FastPriceTracker.getBestAsk,
        if_pos (show initEngine.ask_tracker.summary_word = 0 from rfl)]
    have heq : processNewOrder initEngine 8 5000 3 true
        = .ok (bookAddOrder { initEngine with free_idx := initEngine.free_idx - 1 }
            { id := 8, price := 5000, qty := 3, is_buy := true,
              slot := initEngine.free_list (initEngine.free_idx - 1) }, true) :=
      processNewOrder_nomatch_buy (by decide) (by decide) hbrA
    refine ⟨_, heq, ?_⟩
    have hlvl : (bookAddOrder { initEngine with free_idx := initEngine.free_idx - 1 }
        { id := 8, price := 5000, qty := 3, is_buy := true,
          slot := initEngine.free_list (initEngine.free_idx - 1) }).bids 5000
        = [⟨8, 5000, 3, true, initEngine.free_list (initEngine.free_idx - 1)⟩] := by
      rfl
    rw [hlvl]
    exact List.cons_ne_nil _ _

/-- C7: when the arena has no free slot, `process_new_order` fails with the
arena-exhausted error before any mutation — the error is surfaced to the
caller and the entire engine state (book, indices, free stack, trade
counter) is unchanged by the rejected order. -/
theorem c7_arena_exhaustion_unchanged {e : EngineState} (id price qty : Nat)
    (is_buy : Bool) (h : e.free_idx = 0) :
    processNewOrder e id price qty is_buy
      = Except.error EngineError.arenaExhausted ∧
    stepRun e ⟨id, price, qty, is_buy⟩ = e :=
  processNewOrder_exhausted id price qty is_buy h

/-- Witness for C7 at a concrete input: the fresh engine with its free index
forced to 0 rejects a buy and is left unchanged. -/
theorem c7_arena_exhaustion_unchanged_witness :
    processNewOrder { initEngine with free_idx := 0 } 1 2 3 true
      = Except.error EngineError.arenaExhausted ∧
    stepRun { initEngine with free_idx := 0 } ⟨1, 2, 3, true⟩
      = { initEngine with free_idx := 0 } :=
  c7_arena_exhaustion_unchanged 1 2 3 true rfl

/-- C8 (amended): on a level representing the FIFO queue `hs`, `pop_front`
returns no handle and leaves the state unchanged when the queue is empty;
otherwise it returns the head handle, the remaining orders still represent
the tail queue in unchanged FIFO order (so the new head, if any, has a null
`prev`), the popped node's `prev` is null, and the popped node's `next`
STILL POINTS at the next queue element.  The original claim — that both of
the popped node's sibling handles are returned null — is refuted by
`c8_popped_head_next_not_cleared`: `pop_front` in `src/hft_engine.cpp` never
touches the popped node's own handles. -/
theorem c8_pop_front_behaviour (s : LevelState) (hs : List Nat)
    (hr : Represents s hs) :
    (hs = [] → popFront s = (none, s)) ∧
    (∀ h rest, hs = h :: rest →
      (popFront s).1 = some h ∧
      Represents (popFront s).2 rest ∧
      ((popFront s).2.heap h).prev = none ∧
      ((popFront s).2.heap h).next = rest.head?) := by
  constructor
  · intro h0
    subst h0
    exact popFront_of_empty hr
  · intro h rest hcons
    subst hcons
    exact popFront_cons hr

/-- Witness for C8 at a concrete input: a two-node level holding handles 1
then 2. -/
theorem c8_pop_front_behaviour_witness :
    (([1, 2] : List Nat) = [] →
      popFront { heap := fun n => if n = 2 then Node.mk 2 7 3 true (some 1) none else Node.mk 1 7 5 true none (some 2), head := some 1, tail := some 2 }
        = (none, { heap := fun n => if n = 2 then Node.mk 2 7 3 true (some 1) none else Node.mk 1 7 5 true none (some 2), head := some 1, tail := some 2 })) ∧
    (∀ h rest, ([1, 2] : List Nat) = h :: rest →
      (popFront { heap := fun n => if n = 2 then Node.mk 2 7 3 true (some 1) none else Node.mk 1 7 5 true none (some 2), head := some 1, tail := some 2 }).1 = some h ∧
      Represents (popFront { heap := fun n => if n = 2 then Node.mk 2 7 3 true (some 1) none else Node.mk 1 7 5 true none (some 2), head := some 1, tail := some 2 }).2 rest ∧
      ((popFront { heap := fun n => if n = 2 then Node.mk 2 7 3 true (some 1) none else Node.mk 1 7 5 true none (some 2), head := some 1, tail := some 2 }).2.heap h).prev = none ∧
      ((popFront { heap := fun n => if n = 2 then Node.mk 2 7 3 true (some 1) none else Node.mk 1 7 5 true none (some 2), head := some 1, tail := some 2 }).2.heap h).next = rest.head?) :=
  c8_pop_front_behaviour
    { heap := fun n => if n = 2 then Node.mk 2 7 3 true (some 1) none else Node.mk 1 7 5 true none (some 2), head := some 1, tail := some 2 }
    [1, 2]
    ⟨rfl, by decide, by decide,
     fun a ha => by
       injection ha with hh
       subst hh
       rfl,
     ⟨rfl, rfl, rfl⟩⟩

/-- Counterexample to C8 as stated: popping the head (handle 1) of the
two-node level leaves the popped node's `next` still pointing at handle 2 —
it is not returned with null sibling handles. -/
theorem c8_popped_head_next_not_cleared :
    ((popFront { heap := fun n => if n = 2 then Node.mk 2 7 3 true (some 1) none else Node.mk 1 7 5 true none (some 2), head := some 1, tail := some 2 }).2.heap 1).next = some 2 ∧
    ¬((popFront { heap := fun n => if n = 2 then Node.mk 2 7 3 true (some 1) none else Node.mk 1 7 5 true none (some 2), head := some 1, tail := some 2 }).2.heap 1).next = none := by
  constructor
  · rfl
  · decide

/-- C9: for every tick and every well-formed index state, `set` and `clear`
are idempotent — repeating either leaves the summary word and all data words
unchanged — and `clear` on an already-inactive tick leaves the state exactly
as it was. -/
theorem c9_index_set_clear_idempotent (t : FastPriceTracker) (p : Nat)
    (hwf : t.WF) (hp : p < MAX_PRICE_TICKS) :
    (t.setPriceLevel p).setPriceLevel p = t.setPriceLevel p ∧
    (t.clearPriceLevel p).clearPriceLevel p = t.clearPriceLevel p ∧
    (t.activeAt p = false → t.clearPriceLevel p = t) :=
  ⟨setPriceLevel_idem t p, clearPriceLevel_idem t p,
   fun h => clearPriceLevel_inactive hwf hp h⟩

/-- Witness for C9 at a concrete input: the empty index at tick 3. -/
theorem c9_index_set_clear_idempotent_witness :
    ((⟨0, fun _ => 0⟩ : FastPriceTracker).setPriceLevel 3).setPriceLevel 3
      = (⟨0, fun _ => 0⟩ : FastPriceTracker).setPriceLevel 3 ∧
    ((⟨0, fun _ => 0⟩ : FastPriceTracker).clearPriceLevel 3).clearPriceLevel 3
      = (⟨0, fun _ => 0⟩ : FastPriceTracker).clearPriceLevel 3 ∧
    ((⟨0, fun _ => 0⟩ : FastPriceTracker).activeAt 3 = false →
      (⟨0, fun _ => 0⟩ : FastPriceTracker).clearPriceLevel 3
        = ⟨0, fun _ => 0⟩) :=
  c9_index_set_clear_idempotent ⟨0, fun _ => 0⟩ 3
    ⟨by decide, fun w => show (0 : Nat) < 2 ^ 64 by norm_num, fun w _ => rfl,
     fun w _ => by simp [Nat.zero_testBit]⟩
    (by decide)

/-- C10: after every sequence of valid calls, every order record linked into
any price-level queue of either side has strictly positive remaining
quantity: an inbound rests only when its post-matching remainder is
positive, and a fully filled resting order is removed within the same trade
step. -/
theorem c10_resting_orders_positive (orders : List InboundOrder) (p : Nat)
    (hvalid : ∀ o ∈ orders, ValidOrder o)
    (hlen : orders.length ≤ MAX_ORDERS) :
    (∀ o ∈ (run orders).bids p, 0 < o.qty) ∧
    (∀ o ∈ (run orders).asks p, 0 < o.qty) :=
  ⟨fun o ho => (run_facts orders hvalid hlen).1.bidPos p o ho,
   fun o ho => (run_facts orders hvalid hlen).1.askPos p o ho⟩

/-- Witness for C10 at a concrete input: a single buy resting at tick 1. -/
theorem c10_resting_orders_positive_witness :
    (∀ o ∈ (run [⟨1, 1, 5, true⟩]).bids 1, 0 < o.qty) ∧
    (∀ o ∈ (run [⟨1, 1, 5, true⟩]).asks 1, 0 < o.qty) :=
  c10_resting_orders_positive [⟨1, 1, 5, true⟩] 1
    (by
      intro o ho
      simp only [List.mem_cons, List.not_mem_nil, or_false] at ho
      subst ho
      exact ⟨by decide, by decide⟩)
    (by decide)
